import Mathlib

/-!
Verification development for the stock-details prerenderer
(src/prerender_stock_details.py).

Numbers are modelled as rationals. A Python value of float None or NaN is
modelled as Option.none wherever the code treats it as absent; present
finite values are Option.some of a rational. Python dicts keyed by field
id are modelled as total functions into Option.
-/

namespace AlphaVest

/-- The 30 field identifiers, in the order of DATA_FIELDS in the source. -/
def DATA_FIELDS : List String := [
  "tang_equity_over_tot_liab",
  "capital_intensity_reverse",
  "cagr_tangible_book_per_share",
  "cagr_cash_and_equiv",
  "goodwill_to_assets",
  "leverage_ratio",
  "interest_coverage_ratio",
  "roe_tangible_equity",
  "roic_over_wacc",
  "rule_of_40",
  "cash_conversion_ratio",
  "earnings_yield",
  "price_to_earnings",
  "fcf_yield",
  "peg",
  "price_to_tangible_book",
  "relative_PE_vs_history",
  "avg_5years_eps_growth",
  "avg_5years_revenue_growth",
  "revenue_growth_acceleration",
  "cagr_shares_diluted",
  "expected_growth_market_cap_10Y",
  "final_earnings_for_10y_growth_10perc",
  "final_earnings_for_10y_growth_15perc",
  "avg_5years_roe_growth",
  "implied_perpetual_growth_curr_market_cap",
  "current_ratio",
  "negative_eps_count_5y",
  "eps_growth_5y_total",
  "pe_times_pb"]

/-- The six sections with their field ids, in source (insertion) order. -/
def SECTION_FIELDS : List (String × List String) := [
  ("balance-sheet-strength", [
    "tang_equity_over_tot_liab",
    "capital_intensity_reverse",
    "cagr_tangible_book_per_share",
    "cagr_cash_and_equiv",
    "goodwill_to_assets"]),
  ("debt-service", ["leverage_ratio", "interest_coverage_ratio"]),
  ("profitability", [
    "roe_tangible_equity",
    "roic_over_wacc",
    "rule_of_40",
    "cash_conversion_ratio",
    "avg_5years_roe_growth"]),
  ("valuation", [
    "earnings_yield",
    "price_to_earnings",
    "fcf_yield",
    "peg",
    "price_to_tangible_book",
    "relative_PE_vs_history"]),
  ("growth", [
    "avg_5years_eps_growth",
    "avg_5years_revenue_growth",
    "revenue_growth_acceleration",
    "cagr_shares_diluted",
    "expected_growth_market_cap_10Y",
    "final_earnings_for_10y_growth_10perc",
    "final_earnings_for_10y_growth_15perc",
    "implied_perpetual_growth_curr_market_cap"]),
  ("graham-value-investor-indicator", [
    "current_ratio",
    "negative_eps_count_5y",
    "eps_growth_5y_total",
    "pe_times_pb"])]

/-- The fields where a higher value is favorable (set HIGHER_IS_BETTER). -/
def HIGHER_IS_BETTER : List String := [
  "tang_equity_over_tot_liab",
  "capital_intensity_reverse",
  "cagr_tangible_book_per_share",
  "cagr_cash_and_equiv",
  "roe_tangible_equity",
  "roic_over_wacc",
  "rule_of_40",
  "cash_conversion_ratio",
  "earnings_yield",
  "fcf_yield",
  "avg_5years_eps_growth",
  "avg_5years_revenue_growth",
  "revenue_growth_acceleration",
  "expected_growth_market_cap_10Y",
  "avg_5years_roe_growth",
  "interest_coverage_ratio",
  "current_ratio"]

/-- The fields where a lower value is favorable (set LOWER_IS_BETTER). -/
def LOWER_IS_BETTER : List String := [
  "price_to_earnings",
  "peg",
  "price_to_tangible_book",
  "final_earnings_for_10y_growth_10perc",
  "final_earnings_for_10y_growth_15perc",
  "implied_perpetual_growth_curr_market_cap",
  "leverage_ratio",
  "goodwill_to_assets",
  "relative_PE_vs_history",
  "cagr_shares_diluted",
  "negative_eps_count_5y"]

/-- The 15 percent band constant from the source. -/
def MEDIAN_MARGIN_OF_SAFETY : ℚ := 15 / 100

/-- The dataclass Indicator of the source: an icon glyph and a css class. -/
structure Indicator where
  icon : String
  css_class : String
deriving DecidableEq, Repr

def indBetter : Indicator := ⟨"▲", "better"⟩

def indWorse : Indicator := ⟨"▼", "worse"⟩

def indEqual : Indicator := ⟨"▬", "equal"⟩

/-- Rule for current_ratio: better iff the value is at least 1.5. -/
def ruleCurrentRatio : Option ℚ → Option Indicator
  | none => none
  | some v => some (if v ≥ 3 / 2 then indBetter else indWorse)

/-- Rule for negative_eps_count_5y: better iff the count is exactly 0. -/
def ruleNegativeEps : Option ℚ → Option Indicator
  | none => none
  | some v => some (if v = 0 then indBetter else indWorse)

/-- Rule for eps_growth_5y_total: better iff the multiple exceeds 1. -/
def ruleEpsGrowth : Option ℚ → Option Indicator
  | none => none
  | some v => some (if v > 1 then indBetter else indWorse)

/-- Rule for pe_times_pb: better iff the product is below 30. -/
def rulePeTimesPb : Option ℚ → Option Indicator
  | none => none
  | some v => some (if v < 30 then indBetter else indWorse)

/-- threshold_indicator of the source: the per-field threshold rule, if any.
The source builds a dict of four rules and looks the field up; an absent
(None or NaN) value makes every rule answer none. -/
def threshold_indicator (field_id : String) :
    Option (Option ℚ → Option Indicator) :=
  if field_id = "current_ratio" then some ruleCurrentRatio
  else if field_id = "negative_eps_count_5y" then some ruleNegativeEps
  else if field_id = "eps_growth_5y_total" then some ruleEpsGrowth
  else if field_id = "pe_times_pb" then some rulePeTimesPb
  else none

/-- get_comparison_indicator of the source. Threshold fields are handled
first, then absent operands, then the near-zero-median fallback, then the
15 percent band comparison. -/
def get_comparison_indicator (value median_value : Option ℚ)
    (field_id : String) : Indicator :=
  match threshold_indicator field_id with
  | some rule =>
    match rule value with
    | some res => res
    | none => indEqual
  | none =>
    match value, median_value with
    | some v, some m =>
      if (if m < 0 then -m else m) < 1 / 1000000000000 then
        if HIGHER_IS_BETTER.contains field_id then
          if v > m then indBetter
          else if v < m then indWorse
          else indEqual
        else if LOWER_IS_BETTER.contains field_id then
          if v < m then indBetter
          else if v > m then indWorse
          else indEqual
        else indEqual
      else
        let upper := m * (1 + MEDIAN_MARGIN_OF_SAFETY)
        let lower := m * (1 - MEDIAN_MARGIN_OF_SAFETY)
        if HIGHER_IS_BETTER.contains field_id then
          if v ≥ upper then indBetter
          else if v ≤ lower then indWorse
          else indEqual
        else if LOWER_IS_BETTER.contains field_id then
          if v ≤ lower then indBetter
          else if v ≥ upper then indWorse
          else indEqual
        else indEqual
    | _, _ => indEqual

/-- calculate_section_score of the source. Threshold fields only need a
present value; band fields need a present value and a present median. The
loop accumulates from the left; contributions are independent, so a
head-plus-rest recursion computes the same pair. -/
def calculate_section_score (section_field_ids : List String)
    (stock_data medians : String → Option ℚ) : ℕ × ℕ :=
  match section_field_ids with
  | [] => (0, 0)
  | field_id :: rest =>
    let r := calculate_section_score rest stock_data medians
    let value := stock_data field_id
    let median_value := medians field_id
    if (threshold_indicator field_id).isSome then
      match value with
      | none => r
      | some _ =>
        let ind := get_comparison_indicator value median_value field_id
        (r.1 + (if ind.css_class = "better" then 1 else 0), r.2 + 1)
    else
      match value, median_value with
      | some _, some _ =>
        let ind := get_comparison_indicator value median_value field_id
        (r.1 + (if ind.css_class = "better" then 1 else 0), r.2 + 1)
      | _, _ => r

/-- get_score_chip_class of the source: the qualitative tier of a
section score. -/
def get_score_chip_class (above total : ℕ) : String :=
  if total = 0 then "mixed"
  else
    let ratio : ℚ := (above : ℚ) / (total : ℚ)
    if ratio ≥ 7 / 10 then "good"
    else if ratio ≥ 4 / 10 then "mixed"
    else "poor"

/-- calculate_median of the source: drop absent entries, sort ascending,
then take the middle element (odd count) or the mean of the two middle
elements (even count); none when nothing remains. -/
def calculate_median (values : List (Option ℚ)) : Option ℚ :=
  let clean := List.insertionSort (· ≤ ·) (values.filterMap id)
  match clean with
  | [] => none
  | _ :: _ =>
    let mid := clean.length / 2
    if clean.length % 2 = 0 then
      some ((clean.getD (mid - 1) 0 + clean.getD mid 0) / 2)
    else some (clean.getD mid 0)

/-- Spec-side restatement of the median of an already sorted list: middle
element for an odd count, mean of the two middle elements for an even
count, absent for the empty list. -/
def median_of_sorted (s : List ℚ) : Option ℚ :=
  match s with
  | [] => none
  | _ :: _ =>
    let mid := s.length / 2
    if s.length % 2 = 0 then
      some ((s.getD (mid - 1) 0 + s.getD mid 0) / 2)
    else some (s.getD mid 0)

/-- Round a rational to the nearest integer, ties to the even integer.
This models the rounding used by the fixed-point formatting of the
source language. -/
def roundHalfToEven (q : ℚ) : ℤ :=
  let f : ℤ := ⌊q⌋
  if q - f < 1 / 2 then f
  else if q - f > 1 / 2 then f + 1
  else if f % 2 = 0 then f else f + 1

/-- Left-pad a digit string with zeros up to width d. -/
def padZeros (s : String) (d : ℕ) : String :=
  String.mk (List.replicate (d - s.length) '0') ++ s

/-- Render a rational with exactly d digits after the decimal point. -/
def fmtFixed (q : ℚ) (d : ℕ) : String :=
  let scaled := roundHalfToEven (q * (10 : ℚ) ^ d)
  let sgn := if scaled < 0 then "-" else ""
  let a := scaled.natAbs
  if d = 0 then sgn ++ toString a
  else sgn ++ toString (a / 10 ^ d) ++ "." ++ padZeros (toString (a % 10 ^ d)) d

/-- Insert a comma after every three characters of a reversed digit list;
k counts the digits emitted since the last separator. -/
def groupRev : List Char → ℕ → List Char
  | [], _ => []
  | c :: rest, k =>
    if k = 3 then ',' :: c :: groupRev rest 1
    else c :: groupRev rest (k + 1)

/-- Group the digits of an integer-part string in threes with commas. -/
def groupThrees (s : String) : String :=
  String.mk (groupRev s.data.reverse 0).reverse

/-- Render a rational with two decimals and a comma-grouped integer part,
the default branch of format_metric_value. -/
def fmtGrouped2 (q : ℚ) : String :=
  let scaled := roundHalfToEven (q * 100)
  let sgn := if scaled < 0 then "-" else ""
  let a := scaled.natAbs
  sgn ++ groupThrees (toString (a / 100)) ++ "." ++ padZeros (toString (a % 100)) 2

/-- The fields rendered as a plain two-decimal ratio. -/
def TWO_DECIMAL_FIELDS : List String := [
  "tang_equity_over_tot_liab",
  "capital_intensity_reverse",
  "roic_over_wacc",
  "price_to_earnings",
  "peg",
  "price_to_tangible_book",
  "leverage_ratio",
  "interest_coverage_ratio",
  "relative_PE_vs_history",
  "current_ratio",
  "pe_times_pb"]

/-- The fields rendered as a percentage: value times 100, two decimals,
with a percent sign. -/
def PERCENT_FIELDS : List String := [
  "cagr_tangible_book_per_share",
  "cagr_cash_and_equiv",
  "roe_tangible_equity",
  "cash_conversion_ratio",
  "earnings_yield",
  "fcf_yield",
  "avg_5years_eps_growth",
  "avg_5years_revenue_growth",
  "revenue_growth_acceleration",
  "expected_growth_market_cap_10Y",
  "avg_5years_roe_growth",
  "implied_perpetual_growth_curr_market_cap",
  "goodwill_to_assets",
  "cagr_shares_diluted",
  "eps_growth_5y_total"]

/-- The fields rendered as currency scaled to billions with a B suffix. -/
def BILLIONS_FIELDS : List String := [
  "final_earnings_for_10y_growth_10perc",
  "final_earnings_for_10y_growth_15perc"]

/-- format_metric_value of the source: absent values render as N/A; a
present value is rendered according to the if-chain over the fixed field
sets, falling through to the grouped two-decimal default. -/
def format_metric_value (value : Option ℚ) (field_id : String) : String :=
  match value with
  | none => "N/A"
  | some v =>
    if TWO_DECIMAL_FIELDS.contains field_id then fmtFixed v 2
    else if field_id = "negative_eps_count_5y" then fmtFixed v 0
    else if PERCENT_FIELDS.contains field_id then fmtFixed (v * 100) 2 ++ "%"
    else if BILLIONS_FIELDS.contains field_id then
      fmtFixed (v / 1000000000) 2 ++ "B"
    else if field_id = "rule_of_40" then fmtFixed (v * 100) 2
    else fmtGrouped2 v

/-- Spec-side format classes: the fixed per-field display classes named
by the spec (two-decimal ratio, integer count, percentage, currency in
billions, the scaled-by-100 class of rule_of_40, and the grouped
two-decimal default). -/
inductive FormatClass where
  | twoDecimal
  | integerCount
  | percentTwoDecimal
  | currencyBillions
  | percentScaledTwoDecimal
  | groupedDefault
deriving DecidableEq, Repr

/-- Spec-side fixed mapping from field id to format class. -/
def format_class_of (field_id : String) : FormatClass :=
  if TWO_DECIMAL_FIELDS.contains field_id then .twoDecimal
  else if field_id = "negative_eps_count_5y" then .integerCount
  else if PERCENT_FIELDS.contains field_id then .percentTwoDecimal
  else if BILLIONS_FIELDS.contains field_id then .currencyBillions
  else if field_id = "rule_of_40" then .percentScaledTwoDecimal
  else .groupedDefault

/-- Spec-side renderer of a present value according to its format class. -/
def render_format : FormatClass → ℚ → String
  | .twoDecimal, v => fmtFixed v 2
  | .integerCount, v => fmtFixed v 0
  | .percentTwoDecimal, v => fmtFixed (v * 100) 2 ++ "%"
  | .currencyBillions, v => fmtFixed (v / 1000000000) 2 ++ "B"
  | .percentScaledTwoDecimal, v => fmtFixed (v * 100) 2
  | .groupedDefault, v => fmtGrouped2 v

/-- An input cell as seen by the loader: the None value, a finite number
(int or float, modelled as a rational), a float infinity, the float NaN,
a string, or a value of any other type. -/
inductive Cell where
  | pynone
  | num (q : ℚ)
  | inf
  | ninf
  | nan
  | str (s : String)
  | other
deriving DecidableEq

/-- A value float() can return: a finite value (modelled exactly as a
rational), one of the two infinities, or NaN. -/
inductive PyFloat where
  | finite (q : ℚ)
  | inf
  | ninf
  | nan
deriving DecidableEq

/-- The codepoint ranges whose characters str.isspace() accepts; strip()
with no argument removes exactly these characters from both ends of a
string. -/
def PY_SPACE_RANGES : List (ℕ × ℕ) :=
  [(0x9, 0xd), (0x1c, 0x20), (0x85, 0x85), (0xa0, 0xa0), (0x1680, 0x1680),
   (0x2000, 0x200a), (0x2028, 0x2029), (0x202f, 0x202f), (0x205f, 0x205f),
   (0x3000, 0x3000)]

/-- Whether a character is whitespace to Python's strip(). -/
def isPySpace (c : Char) : Bool :=
  PY_SPACE_RANGES.any
    (fun r => decide (r.1 ≤ c.toNat) && decide (c.toNat ≤ r.2))

/-- Model of str.strip() with no argument: drop leading and trailing
Python whitespace. -/
def pyStrip (s : String) : String :=
  String.mk
    (((s.data.dropWhile isPySpace).reverse.dropWhile isPySpace).reverse)

/-- ASCII lower-casing. The source compares lower-cased strings only
against the ASCII sentinel and keyword literals; no single character
outside ASCII lower-cases onto a letter of those words, and float()
turns non-ASCII characters other than decimal digits and whitespace into
an error, so ASCII case-folding agrees with str.lower() everywhere the
source applies it. -/
def pyLower (s : String) : String :=
  String.mk (s.data.map Char.toLower)

/-- The sentinel strings treated as absent by the loader. -/
def SENTINELS : List String := ["na", "n/a", "nan", "null"]

/-- The first codepoints of the runs of ten decimal digits (category Nd)
of the Unicode database: float() reads any decimal digit by its value,
converting non-ASCII decimal digits to ASCII before parsing. -/
def PY_DIGIT_BASES : List ℕ :=
  [0x30, 0x660, 0x6f0, 0x7c0, 0x966, 0x9e6, 0xa66, 0xae6, 0xb66, 0xbe6,
   0xc66, 0xce6, 0xd66, 0xde6, 0xe50, 0xed0, 0xf20, 0x1040, 0x1090,
   0x17e0, 0x1810, 0x1946, 0x19d0, 0x1a80, 0x1a90, 0x1b50, 0x1bb0,
   0x1c40, 0x1c50, 0xa620, 0xa8d0, 0xa900, 0xa9d0, 0xa9f0, 0xaa50,
   0xabf0, 0xff10, 0x104a0, 0x10d30, 0x11066, 0x110f0, 0x11136, 0x111d0,
   0x112f0, 0x11450, 0x114d0, 0x11650, 0x116c0, 0x11730, 0x118e0,
   0x11950, 0x11c50, 0x11d50, 0x11da0, 0x16a60, 0x16ac0, 0x16b50,
   0x1d7ce, 0x1d7d8, 0x1d7e2, 0x1d7ec, 0x1d7f6, 0x1e140, 0x1e2f0,
   0x1e950, 0x1fbf0]

/-- The decimal value of a character, for every decimal digit of the
Unicode database, ASCII or not. -/
def decDigit (c : Char) : Option ℕ :=
  match PY_DIGIT_BASES.find?
    (fun b => decide (b ≤ c.toNat) && decide (c.toNat ≤ b + 9)) with
  | some b => some (c.toNat - b)
  | none => none

/-- Whether a character is a decimal digit in the sense of float(). -/
def isPyDigit (c : Char) : Bool := (decDigit c).isSome

/-- The value of a run of decimal digits. -/
def pyDigitsVal (cs : List Char) : ℕ :=
  cs.foldl (fun a c => a * 10 + (decDigit c).getD 0) 0

/-- Underscore placement after the first character: every underscore
must stand directly between two decimal digits, the rule float()
enforces before discarding underscores. The first argument is the
previous character. -/
def undOkAux : Char → List Char → Bool
  | _, [] => true
  | p, c :: rest =>
    (if c = '_' then
      isPyDigit p &&
        (match rest with
         | c2 :: _ => isPyDigit c2
         | [] => false)
     else true) && undOkAux c rest

/-- Underscore placement check of float(): underscores may appear only
directly between two decimal digits. -/
def undOk : List Char → Bool
  | [] => true
  | c :: rest => !(c == '_') && undOkAux c rest

/-- Parse an optional exponent suffix, after the underscores are gone:
empty means exponent 0; otherwise the letter e or E, an optional sign,
and at least one decimal digit consuming the whole rest. -/
def parseExpPart : List Char → Option ℤ
  | [] => some 0
  | c :: rest =>
    if c = 'e' ∨ c = 'E' then
      let sr : ℤ × List Char :=
        match rest with
        | '+' :: r => (1, r)
        | '-' :: r => (-1, r)
        | r => (1, r)
      let ds := sr.2.takeWhile isPyDigit
      let r3 := sr.2.dropWhile isPyDigit
      if ds.isEmpty ∨ ¬ r3.isEmpty then none
      else some (sr.1 * pyDigitsVal ds)
    else none

/-- Model of float(s) on an already stripped string, as CPython accepts
it: underscores may stand only directly between two decimal digits and
are then discarded; an optional sign is followed either by one of the
case-insensitive keywords inf, infinity and nan, or by a number made of
decimal digits (ASCII or not, as in the float() transform) with an
optional fractional part (at least one digit in total) and an optional
exponent. Anything else, such as empty, blank or alphabetic input,
yields none instead of an error. Finite values are exact rationals: the
rounding of decimal literals to binary doubles, and with it overflow to
an infinity, lies outside the rational model of floats. -/
def parsePyFloat (s : String) : Option PyFloat :=
  if undOk s.data then
    let cs0 := s.data.filter (fun c => !(c == '_'))
    let sc : Bool × List Char :=
      match cs0 with
      | '+' :: r => (false, r)
      | '-' :: r => (true, r)
      | r => (false, r)
    let low := String.mk (sc.2.map Char.toLower)
    if low = "inf" ∨ low = "infinity" then
      some (if sc.1 then PyFloat.ninf else PyFloat.inf)
    else if low = "nan" then some PyFloat.nan
    else
      let sgn : ℚ := if sc.1 then -1 else 1
      let ip := sc.2.takeWhile isPyDigit
      let cs2 := sc.2.dropWhile isPyDigit
      match cs2 with
      | '.' :: cs3 =>
        let fp := cs3.takeWhile isPyDigit
        let cs4 := cs3.dropWhile isPyDigit
        if ip.isEmpty ∧ fp.isEmpty then none
        else
          match parseExpPart cs4 with
          | none => none
          | some e =>
            some (PyFloat.finite (sgn * ((pyDigitsVal ip : ℚ) +
              (pyDigitsVal fp : ℚ) / (10 : ℚ) ^ fp.length) *
              (10 : ℚ) ^ e))
      | rest =>
        if ip.isEmpty then none
        else
          match parseExpPart rest with
          | none => none
          | some e =>
            some (PyFloat.finite (sgn * (pyDigitsVal ip : ℚ) *
              (10 : ℚ) ^ e))
  else none

/-- _to_float of the source: None for the None value and the float NaN,
numeric pass-through (the infinities included), strings stripped then
checked against blank and the sentinels before float() parsing, and None
for every other type. It is total, so it never raises. -/
def to_float : Cell → Option PyFloat
  | .pynone => none
  | .nan => none
  | .num q => some (.finite q)
  | .inf => some .inf
  | .ninf => some .ninf
  | .str v =>
    let s := pyStrip v
    if s = "" then none
    else if SENTINELS.contains (pyLower s) then none
    else parsePyFloat s
  | .other => none

/-! ### Document model for the template renderer

The parsed template is a tree of element and text nodes. Attributes are
an association list; class lists are stored in their serialized
space-separated form. The renderer walks the tree functionally: setting
the string of an element replaces its children with a single text node,
exactly as the in-place mutation of the source does to the one node it
touches. -/

/-- Attribute association list of an element. -/
abbrev Attrs := List (String × String)

/-- First value bound to a key, if any. -/
def lookupAttr : Attrs → String → Option String
  | [], _ => none
  | (k2, v) :: r, k => if k2 = k then some v else lookupAttr r k

/-- Bind a key, replacing an existing binding in place or appending. -/
def setAttr : Attrs → String → String → Attrs
  | [], k, v => [(k, v)]
  | (k2, v2) :: r, k, v =>
    if k2 = k then (k, v) :: r else (k2, v2) :: setAttr r k v

mutual

inductive Node where
  | text : String → Node
  | elem : String → Attrs → NodeList → Node

inductive NodeList where
  | nil : NodeList
  | cons : Node → NodeList → NodeList

end

/-- Predicates on elements see the tag and the attributes; text nodes
never match, as in the find calls of the source. -/
abbrev EPred := String → Attrs → Bool

def isTitleTag : EPred := fun t _ => t == "title"

def isBodyTag : EPred := fun t _ => t == "body"

def isLinkTag : EPred := fun t _ => t == "link"

def isScriptTag : EPred := fun t _ => t == "script"

def isAnchorTag : EPred := fun t _ => t == "a"

/-- Match an element carrying the given id attribute. -/
def hid (i : String) : EPred := fun _ a => lookupAttr a "id" == some i

mutual

/-- First matching element of a subtree in document order. -/
def findFirstN (g : EPred) : Node → Option Node
  | .text _ => none
  | .elem t a c => if g t a then some (.elem t a c) else findFirstL g c

/-- First matching element of a forest in document order. -/
def findFirstL (g : EPred) : NodeList → Option Node
  | .nil => none
  | .cons n r =>
    match findFirstN g n with
    | some x => some x
    | none => findFirstL g r

end

/-- Whether some element of the forest matches. -/
def anyL (g : EPred) (d : NodeList) : Bool := (findFirstL g d).isSome

mutual

/-- Concatenated text content of a subtree. -/
def textN : Node → String
  | .text s => s
  | .elem _ _ c => textL c

/-- Concatenated text content of a forest. -/
def textL : NodeList → String
  | .nil => ""
  | .cons n r => textN n ++ textL r

end

/-- Text content of the first matching element, if any. -/
def textFirst (g : EPred) (d : NodeList) : Option String :=
  (findFirstL g d).map textN

mutual

/-- Update the first matching element of a subtree: u builds the
replacement node from the tag, attributes and children of the match. The
flag reports whether a match was found. -/
def updFirstN (g : EPred) (u : String → Attrs → NodeList → Node) :
    Node → Node × Bool
  | .text t => (.text t, false)
  | .elem tg a c =>
    if g tg a then (u tg a c, true)
    else
      let r := updFirstL g u c
      (.elem tg a r.1, r.2)

/-- Update the first matching element of a forest. -/
def updFirstL (g : EPred) (u : String → Attrs → NodeList → Node) :
    NodeList → NodeList × Bool
  | .nil => (.nil, false)
  | .cons n rest =>
    match updFirstN g u n with
    | (n2, true) => (.cons n2 rest, true)
    | (n2, false) =>
      match updFirstL g u rest with
      | (r2, b) => (.cons n2 r2, b)

end

/-- Setting the string of an element: its children become a single text
node, as the string setter of the source does. -/
def setStringU (s : String) : String → Attrs → NodeList → Node :=
  fun tg a _ => .elem tg a (.cons (.text s) .nil)

/-- Rewriting the attributes of an element in place. -/
def attrU (f : String → Attrs → Attrs) : String → Attrs → NodeList → Node :=
  fun tg a c => .elem tg (f tg a) c

/-- Replacing an element wholesale, modelling replace_with. -/
def replaceU (w : Node) : String → Attrs → NodeList → Node :=
  fun _ _ _ => w

/-- Append a node at the end of a forest. -/
def appendL : NodeList → Node → NodeList
  | .nil, n => .cons n .nil
  | .cons x r, n => .cons x (appendL r n)

mutual

/-- Append the chip to the children of the first h2 element of a
subtree. -/
def appH2N (chip : Node) : Node → Node × Bool
  | .text t => (.text t, false)
  | .elem tg a c =>
    if tg == "h2" then (.elem tg a (appendL c chip), true)
    else
      let r := appH2L chip c
      (.elem tg a r.1, r.2)

def appH2L (chip : Node) : NodeList → NodeList × Bool
  | .nil => (.nil, false)
  | .cons n rest =>
    match appH2N chip n with
    | (n2, true) => (.cons n2 rest, true)
    | (n2, false) =>
      match appH2L chip rest with
      | (r2, b) => (.cons n2 r2, b)

end

/-- Appending the section chip to the first h2 descendant of the matched
section element. -/
def chipU (chip : Node) : String → Attrs → NodeList → Node :=
  fun tg a c => .elem tg a (appH2L chip c).1

mutual

/-- Rewrite the attributes of every matching element. -/
def updAllAN (g : EPred) (f : String → Attrs → Attrs) : Node → Node
  | .text t => .text t
  | .elem tg a c => .elem tg (if g tg a then f tg a else a) (updAllAL g f c)

def updAllAL (g : EPred) (f : String → Attrs → Attrs) : NodeList → NodeList
  | .nil => .nil
  | .cons n r => .cons (updAllAN g f n) (updAllAL g f r)

end

/-- Serialize attributes as space-prefixed key-value pairs. -/
def serializeAttrs : Attrs → String
  | [] => ""
  | (k, v) :: r => " " ++ k ++ "=" ++ "\"" ++ v ++ "\"" ++ serializeAttrs r

mutual

/-- Serialize a subtree to markup text. -/
def serializeN : Node → String
  | .text s => s
  | .elem t a c =>
    "<" ++ t ++ serializeAttrs a ++ ">" ++ serializeL c ++ "</" ++ t ++ ">"

/-- Serialize a forest to markup text. -/
def serializeL : NodeList → String
  | .nil => ""
  | .cons n r => serializeN n ++ serializeL r

end

/-- Split a string at every occurrence of a separator character. -/
def splitOnCharAux (c : Char) : List Char → List Char → List String
  | [], acc => [String.mk acc.reverse]
  | x :: r, acc =>
    if x == c then String.mk acc.reverse :: splitOnCharAux c r []
    else splitOnCharAux c r (x :: acc)

/-- Split a string at every occurrence of a separator character. -/
def splitOnChar (s : String) (c : Char) : List String :=
  splitOnCharAux c s.data []

/-- Whether p is a leading piece of s. -/
def strStarts (s p : String) : Bool := p.data.isPrefixOf s.data

/-- Join strings with a separator. -/
def joinSep (sep : String) : List String → String
  | [] => ""
  | [x] => x
  | x :: r => x ++ sep ++ joinSep sep r

/-- The tier label written into a score-label element: Strong, Mixed or
Weak according to the chip class, with Neutral as the initial fallback
of the source. -/
def scoreLabelText (chip_class : String) : String :=
  if chip_class = "good" then "Strong"
  else if chip_class = "mixed" then "Mixed"
  else if chip_class = "poor" then "Weak"
  else "Neutral"

/-- The rewritten style of a score bar: previous width entries are
dropped and the percentage width appended. -/
def newStyle (style : String) (pct : ℚ) : String :=
  let parts := ((splitOnChar style ';').map pyStrip).filter
    (fun p => !(p == "") && !(strStarts p "width:"))
  joinSep "; " (parts ++ ["width: " ++ fmtFixed pct 0 ++ "%"]) ++ ";"

/-- The rewritten class list of a section card: previous status classes
are dropped and the status class of the chip appended. The class
attribute is its whitespace-split token list. -/
def classFilter (cls : String) (chip_class : String) : String :=
  let existing := (splitOnChar cls ' ').filter (fun c => !(c == ""))
  let filtered := existing.filter (fun c =>
    !(c == "status-good") && !(c == "status-mixed") && !(c == "status-poor"))
  joinSep " " (filtered ++ ["status-" ++ chip_class])

/-- The section score chip span appended to the section heading. -/
def sectionChip (above total : ℕ) (chip_class : String) : Node :=
  .elem "span" [("class", "section-score " ++ chip_class)]
    (.cons (.text (toString above ++ "/" ++ toString total ++ " above median"))
      .nil)

/-- One iteration of the section loop of render_html: chip appended to
the section heading, then score value, bar width, card status class and
tier label, each on the element with the corresponding id when present. -/
def renderSection (stock_data medians : String → Option ℚ)
    (d : NodeList) (sec : String × List String) : NodeList :=
  let above := (calculate_section_score sec.2 stock_data medians).1
  let total := (calculate_section_score sec.2 stock_data medians).2
  let chip_class := get_score_chip_class above total
  let d := (updFirstL (hid sec.1) (chipU (sectionChip above total chip_class)) d).1
  let d := (updFirstL (hid ("score-val-" ++ sec.1))
    (setStringU (toString above ++ "/" ++ toString total)) d).1
  let pct : ℚ := if total > 0 then ((above : ℚ) / (total : ℚ)) * 100 else 0
  let d := (updFirstL (hid ("score-bar-" ++ sec.1))
    (attrU (fun _ a =>
      setAttr a "style" (newStyle ((lookupAttr a "style").getD "") pct))) d).1
  let d := (updFirstL (hid ("card-" ++ sec.1))
    (attrU (fun _ a => setAttr a "class"
      (classFilter ((lookupAttr a "class").getD "") chip_class))) d).1
  let d := (updFirstL (hid ("score-label-" ++ sec.1))
    (setStringU (scoreLabelText chip_class)) d).1
  d

/-- The composite replacing a metric element: indicator glyph span plus
formatted value span. -/
def metricWrapper (value median_value : Option ℚ) (field_id : String) :
    Node :=
  let indicator := get_comparison_indicator value median_value field_id
  let valClass := "metric-value" ++
    (if indicator.css_class = "better" then " metric-better"
     else if indicator.css_class = "worse" then " metric-worse" else "")
  .elem "div" [("class", "metric-value-wrapper")]
    (.cons (.elem "span"
        [("class", "metric-indicator " ++ indicator.css_class),
         ("aria-label", indicator.css_class)]
        (.cons (.text indicator.icon) .nil))
      (.cons (.elem "span" [("class", valClass)]
          (.cons (.text (format_metric_value value field_id)) .nil))
        .nil))

/-- One iteration of the metric loop of render_html: the element with the
field id is replaced by the wrapper, and the paired median element, when
present, receives the formatted median. -/
def renderMetric (stock_data medians : String → Option ℚ)
    (d : NodeList) (field_id : String) : NodeList :=
  let value := stock_data field_id
  let median_value := medians field_id
  let d := (updFirstL (hid field_id)
    (replaceU (metricWrapper value median_value field_id)) d).1
  let d := (updFirstL (hid (field_id ++ "_median"))
    (setStringU (format_metric_value median_value field_id)) d).1
  d

/-- The body markers set by render_html. -/
def bodyAttrsFix (symbol : String) : String → Attrs → Attrs :=
  fun _ a => setAttr (setAttr a "data-stock-symbol" symbol) "data-prerendered" "1"

/-- Stylesheet link rewrite of render_html. -/
def linkFix (asset_path : String) : String → Attrs → Attrs :=
  fun _ a =>
    if pyStrip ((lookupAttr a "href").getD "") == "styles.css" then
      setAttr a "href" (asset_path ++ "styles.css")
    else a

/-- Script source rewrite of render_html. -/
def scriptFix (asset_path : String) : String → Attrs → Attrs :=
  fun _ a =>
    let src := pyStrip ((lookupAttr a "src").getD "")
    if strStarts src "js/" then setAttr a "src" (asset_path ++ src) else a

/-- Internal navigation link rewrite of render_html. -/
def aFix (asset_path : String) : String → Attrs → Attrs :=
  fun _ a =>
    if pyStrip ((lookupAttr a "href").getD "") == "index.html" then
      setAttr a "href" (asset_path ++ "index.html")
    else a

/-- render_html of the source up to serialization: set the title and the
symbol header, mark the body, rewrite asset references, then run the
section loop and the metric loop. -/
def render_doc (template : NodeList) (symbol : String)
    (stock_data medians : String → Option ℚ) (asset_path : String) :
    NodeList :=
  let d := (updFirstL isTitleTag (setStringU ("Stock Details - " ++ symbol)) template).1
  let d := (updFirstL (hid "stock-symbol-header") (setStringU symbol) d).1
  let d := (updFirstL isBodyTag (attrU (bodyAttrsFix symbol)) d).1
  let d := updAllAL isLinkTag (linkFix asset_path) d
  let d := updAllAL isScriptTag (scriptFix asset_path) d
  let d := updAllAL isAnchorTag (aFix asset_path) d
  let d := SECTION_FIELDS.foldl (renderSection stock_data medians) d
  let d := DATA_FIELDS.foldl (renderMetric stock_data medians) d
  d

/-- render_html of the source: the transformed document, serialized. -/
def render_html (template : NodeList) (symbol : String)
    (stock_data medians : String → Option ℚ) (asset_path : String) :
    String :=
  serializeL (render_doc template symbol stock_data medians asset_path)

/-- Whether a forest consists of text nodes only. -/
def textOnlyL : NodeList → Bool
  | .nil => true
  | .cons (.text _) r => textOnlyL r
  | .cons (.elem _ _ _) _ => false

/-- Whether an element carries any id attribute. -/
def hasIdAttr : EPred := fun _ a => (lookupAttr a "id").isSome

mutual

/-- Template well-formedness: titles carry no attributes and hold only
text; the header element is not a title and holds neither titles nor
id-carrying elements; every other id-carrying element is not a title and
holds neither titles nor the header. -/
def wfN : Node → Bool
  | .text _ => true
  | .elem t a c =>
    (if t == "title" then a.isEmpty && textOnlyL c else true) &&
    (match lookupAttr a "id" with
     | none => true
     | some i =>
       if i == "stock-symbol-header" then
         !(t == "title") && !(anyL isTitleTag c) && !(anyL hasIdAttr c)
       else
         !(t == "title") && !(anyL isTitleTag c) &&
         !(anyL (hid "stock-symbol-header") c)) &&
    wfL c

def wfL : NodeList → Bool
  | .nil => true
  | .cons n r => wfN n && wfL r

end

/-- A small concrete template: a title element and the symbol header
span. -/
def claimDoc : NodeList :=
  .cons (.elem "title" [] (.cons (.text "x") .nil))
    (.cons (.elem "span" [("id", "stock-symbol-header")] .nil) .nil)

/-- Spec-side notion used by the section scorer: a field has a resolvable
comparison when its value is present and, for band-based fields, the
median is present as well. -/
def spec_resolvable (field_id : String)
    (stock_data medians : String → Option ℚ) : Bool :=
  if (threshold_indicator field_id).isSome then (stock_data field_id).isSome
  else (stock_data field_id).isSome && (medians field_id).isSome

/-- The branch-free absolute value used in get_comparison_indicator is
the absolute value. -/
lemma abs_ite (m : ℚ) : (if m < 0 then -m else m) = |m| := by
  rcases lt_or_le m 0 with h | h
  · rw [if_pos h, abs_of_neg h]
  · rw [if_neg (not_lt.mpr h), abs_of_nonneg h]

/-- C1: for a band-based field with present value and median of absolute
value at least 1e-12, get_comparison_indicator tests against the bands
median times (1 plus 0.15) and median times (1 minus 0.15): for a
higher-is-better field, value at or above the upper band is better, at or
below the lower band is worse, otherwise equal; a lower-is-better field
inverts the two inequalities; a field of neutral polarity is always
equal. The stated boundary examples hold at median 10. -/
theorem band_comparison_spec :
    (∀ (field_id : String) (v m : ℚ),
      threshold_indicator field_id = none →
      1 / 1000000000000 ≤ |m| →
      get_comparison_indicator (some v) (some m) field_id =
        (if HIGHER_IS_BETTER.contains field_id then
          (if v ≥ m * (1 + 15 / 100) then indBetter
           else if v ≤ m * (1 - 15 / 100) then indWorse
           else indEqual)
         else if LOWER_IS_BETTER.contains field_id then
          (if v ≤ m * (1 - 15 / 100) then indBetter
           else if v ≥ m * (1 + 15 / 100) then indWorse
           else indEqual)
         else indEqual)) ∧
    get_comparison_indicator (some (23 / 2)) (some 10)
      "tang_equity_over_tot_liab" = indBetter ∧
    get_comparison_indicator (some (1149 / 100)) (some 10)
      "tang_equity_over_tot_liab" = indEqual ∧
    get_comparison_indicator (some (17 / 2)) (some 10)
      "tang_equity_over_tot_liab" = indWorse ∧
    get_comparison_indicator (some (851 / 100)) (some 10)
      "tang_equity_over_tot_liab" = indEqual := by
  have main : ∀ (field_id : String) (v m : ℚ),
      threshold_indicator field_id = none →
      1 / 1000000000000 ≤ |m| →
      get_comparison_indicator (some v) (some m) field_id =
        (if HIGHER_IS_BETTER.contains field_id then
          (if v ≥ m * (1 + 15 / 100) then indBetter
           else if v ≤ m * (1 - 15 / 100) then indWorse
           else indEqual)
         else if LOWER_IS_BETTER.contains field_id then
          (if v ≤ m * (1 - 15 / 100) then indBetter
           else if v ≥ m * (1 + 15 / 100) then indWorse
           else indEqual)
         else indEqual) := by
    intro field_id v m ht hm
    simp only [get_comparison_indicator, ht, MEDIAN_MARGIN_OF_SAFETY]
    rw [abs_ite m, if_neg (not_lt.mpr hm)]
  refine ⟨main, ?_, ?_, ?_, ?_⟩ <;>
    · simp [get_comparison_indicator, threshold_indicator,
        HIGHER_IS_BETTER, LOWER_IS_BETTER, MEDIAN_MARGIN_OF_SAFETY]
      norm_num [indBetter, indWorse, indEqual]

/-- Witness for C1: the band theorem applied to the lower-is-better field
goodwill_to_assets at value 8.5 and median 10 yields better. -/
theorem band_comparison_spec_witness :
    threshold_indicator "goodwill_to_assets" = none ∧
    (1 / 1000000000000 : ℚ) ≤ |(10 : ℚ)| ∧
    get_comparison_indicator (some (17 / 2)) (some 10)
      "goodwill_to_assets" = indBetter := by
  refine ⟨rfl, by norm_num, ?_⟩
  have h := band_comparison_spec.1 "goodwill_to_assets" (17 / 2) 10
    rfl (by norm_num)
  rw [h]
  simp [HIGHER_IS_BETTER, LOWER_IS_BETTER]
  norm_num

/-- C2: each of the four threshold fields is classified from the value
alone (the median argument is arbitrary and unused): current_ratio is
better iff the value is at least 1.5, negative_eps_count_5y iff it is
exactly 0, eps_growth_5y_total iff it exceeds 1, pe_times_pb iff it is
below 30; otherwise worse; an absent value gives equal. -/
theorem threshold_rules_spec :
    ∀ (v : ℚ) (m : Option ℚ),
      get_comparison_indicator (some v) m "current_ratio" =
        (if v ≥ 3 / 2 then indBetter else indWorse) ∧
      get_comparison_indicator (some v) m "negative_eps_count_5y" =
        (if v = 0 then indBetter else indWorse) ∧
      get_comparison_indicator (some v) m "eps_growth_5y_total" =
        (if v > 1 then indBetter else indWorse) ∧
      get_comparison_indicator (some v) m "pe_times_pb" =
        (if v < 30 then indBetter else indWorse) ∧
      get_comparison_indicator none m "current_ratio" = indEqual ∧
      get_comparison_indicator none m "negative_eps_count_5y" = indEqual ∧
      get_comparison_indicator none m "eps_growth_5y_total" = indEqual ∧
      get_comparison_indicator none m "pe_times_pb" = indEqual := by
  intro v m
  exact ⟨rfl, rfl, rfl, rfl, rfl, rfl, rfl, rfl⟩

/-- C5: for a band-based field whose present median has absolute value
below 1e-12, the comparison is strict against the median itself: for a
higher-is-better field a value above the median is better and below is
worse; a lower-is-better field inverts the strict inequalities; a field
of neutral polarity is equal. -/
theorem near_zero_median_spec :
    ∀ (field_id : String) (v m : ℚ),
      threshold_indicator field_id = none →
      |m| < 1 / 1000000000000 →
      get_comparison_indicator (some v) (some m) field_id =
        (if HIGHER_IS_BETTER.contains field_id then
          (if v > m then indBetter
           else if v < m then indWorse
           else indEqual)
         else if LOWER_IS_BETTER.contains field_id then
          (if v < m then indBetter
           else if v > m then indWorse
           else indEqual)
         else indEqual) := by
  intro field_id v m ht hm
  simp only [get_comparison_indicator, ht]
  rw [abs_ite m, if_pos hm]

/-- Witness for C5: at median 0 the lower-is-better field
goodwill_to_assets classifies a negative value as better. -/
theorem near_zero_median_spec_witness :
    threshold_indicator "goodwill_to_assets" = none ∧
    |(0 : ℚ)| < 1 / 1000000000000 ∧
    get_comparison_indicator (some (-1)) (some 0)
      "goodwill_to_assets" = indBetter := by
  refine ⟨rfl, by norm_num, ?_⟩
  have h := near_zero_median_spec "goodwill_to_assets" (-1) 0
    rfl (by norm_num)
  rw [h]
  simp [HIGHER_IS_BETTER, LOWER_IS_BETTER]

/-- C3: calculate_section_score counts exactly the fields with a
resolvable comparison into total, and those whose indicator is better
into above; get_score_chip_class maps the pair to mixed when total is 0,
good when the ratio is at least 0.7, mixed when it is at least 0.4 and
below 0.7, and poor below 0.4; with the stated examples at total 10. -/
theorem section_score_spec :
    ∀ (fids : List String) (stock_data medians : String → Option ℚ),
      calculate_section_score fids stock_data medians =
        (fids.countP (fun f => spec_resolvable f stock_data medians &&
          decide ((get_comparison_indicator (stock_data f) (medians f)
            f).css_class = "better")),
         fids.countP (fun f => spec_resolvable f stock_data medians)) ∧
      (∀ above total : ℕ,
        (total = 0 → get_score_chip_class above total = "mixed") ∧
        (total ≠ 0 → 7 / 10 ≤ (above : ℚ) / total →
          get_score_chip_class above total = "good") ∧
        (total ≠ 0 → 4 / 10 ≤ (above : ℚ) / total →
          (above : ℚ) / total < 7 / 10 →
          get_score_chip_class above total = "mixed") ∧
        (total ≠ 0 → (above : ℚ) / total < 4 / 10 →
          get_score_chip_class above total = "poor")) ∧
      get_score_chip_class 7 10 = "good" ∧
      get_score_chip_class 4 10 = "mixed" ∧
      get_score_chip_class 3 10 = "poor" ∧
      get_score_chip_class 0 0 = "mixed" := by
  intro fids stock_data medians
  refine ⟨?_, ?_, by norm_num [get_score_chip_class],
    by norm_num [get_score_chip_class], by norm_num [get_score_chip_class],
    by norm_num [get_score_chip_class]⟩
  · induction fids with
    | nil => rfl
    | cons f rest ih =>
      simp only [calculate_section_score, List.countP_cons, ih]
      by_cases ht : (threshold_indicator f).isSome
      · rw [if_pos ht]
        cases hv : stock_data f with
        | none => simp [spec_resolvable, ht, hv]
        | some x =>
          by_cases hb : (get_comparison_indicator (stock_data f)
              (medians f) f).css_class = "better"
          · simp [spec_resolvable, ht, hv, hb]
          · simp [spec_resolvable, ht, hv, hb]
      · rw [if_neg ht]
        cases hv : stock_data f with
        | none => simp [spec_resolvable, ht, hv]
        | some x =>
          cases hm : medians f with
          | none => simp [spec_resolvable, ht, hv, hm]
          | some y =>
            by_cases hb : (get_comparison_indicator (stock_data f)
                (medians f) f).css_class = "better"
            · simp [spec_resolvable, ht, hv, hm, hb]
            · simp [spec_resolvable, ht, hv, hm, hb]
  · intro above total
    refine ⟨fun h0 => by simp [get_score_chip_class, h0], ?_, ?_, ?_⟩
    · intro h0 h7
      simp only [get_score_chip_class, if_neg h0]
      rw [if_pos (by exact h7)]
    · intro h0 h4 h7
      simp only [get_score_chip_class, if_neg h0]
      rw [if_neg (by exact not_le.mpr h7), if_pos (by exact h4)]
    · intro h0 h4
      simp only [get_score_chip_class, if_neg h0]
      rw [if_neg (by exact not_le.mpr (lt_trans h4 (by norm_num))),
        if_neg (by exact not_le.mpr h4)]

/-- Witness for C3: at a concrete two-field section the score is 2 of 2,
and the tier implications applied at (7,10) give good. -/
theorem section_score_spec_witness :
    (calculate_section_score ["current_ratio", "goodwill_to_assets"]
        (fun f => if f = "current_ratio" then some 2
          else if f = "goodwill_to_assets" then some 1 else none)
        (fun f => if f = "goodwill_to_assets" then some 10 else none) =
      (2, 2)) ∧
    (10 : ℕ) ≠ 0 ∧ (7 / 10 : ℚ) ≤ (7 : ℚ) / 10 ∧
    get_score_chip_class 7 10 = "good" := by
  have h := section_score_spec ["current_ratio", "goodwill_to_assets"]
    (fun f => if f = "current_ratio" then some 2
      else if f = "goodwill_to_assets" then some 1 else none)
    (fun f => if f = "goodwill_to_assets" then some 10 else none)
  refine ⟨?_, by decide, by norm_num, ((h.2.1 7 10).2.1 (by decide) (by norm_num))⟩
  simp [calculate_section_score, get_comparison_indicator, threshold_indicator,
    ruleCurrentRatio, HIGHER_IS_BETTER, LOWER_IS_BETTER, MEDIAN_MARGIN_OF_SAFETY,
    indBetter, indWorse, indEqual]
  norm_num

/-- C4: calculate_median drops absent entries and agrees with the middle
element (odd count), the mean of the two middle elements (even count), or
absence (empty) of any ascending sorting of the present values. -/
theorem median_spec :
    ∀ (values : List (Option ℚ)) (s : List ℚ),
      s.Perm (values.filterMap id) →
      s.Sorted (· ≤ ·) →
      calculate_median values = median_of_sorted s := by
  intro values s hperm hsort
  have h1 : List.insertionSort (· ≤ ·) (values.filterMap id) = s :=
    List.eq_of_perm_of_sorted
      ((List.perm_insertionSort _ _).trans hperm.symm)
      (List.sorted_insertionSort _ _) hsort
  unfold calculate_median median_of_sorted
  rw [h1]

/-- Witness for C4: the median of the present values 3, 1 is the mean 2
of the two middle elements of the sorted list. -/
theorem median_spec_witness :
    List.Perm [(1 : ℚ), 3] ([some 3, none, some 1].filterMap id) ∧
    List.Sorted (· ≤ ·) [(1 : ℚ), 3] ∧
    calculate_median [some 3, none, some 1] = median_of_sorted [1, 3] := by
  refine ⟨by decide, by decide, ?_⟩
  exact median_spec [some 3, none, some 1] [1, 3] (by decide) (by decide)

/-- C6: format_metric_value factors through the fixed mapping from field
id to format class: an absent value renders as N/A for every field, and a
present value renders according to the format class of the field. -/
theorem format_spec :
    ∀ (field_id : String) (v : ℚ),
      format_metric_value none field_id = "N/A" ∧
      format_metric_value (some v) field_id =
        render_format (format_class_of field_id) v := by
  intro field_id v
  refine ⟨rfl, ?_⟩
  simp only [format_metric_value, format_class_of]
  split_ifs <;> rfl

/-- C8: the loader coercion never raises: it returns none for the None
value, the float NaN and values of other types, passes finite numbers
and the infinities through, maps blank and sentinel strings
(case-insensitive, surrounding whitespace ignored) to none, and
otherwise parses the stripped string exactly as float() does, returning
the parsed value when the string parses as a float and none instead of
an error when it does not. -/
theorem to_float_spec :
    ∀ (q : ℚ) (s : String),
      to_float Cell.pynone = none ∧
      to_float Cell.nan = none ∧
      to_float Cell.other = none ∧
      to_float (Cell.num q) = some (PyFloat.finite q) ∧
      to_float Cell.inf = some PyFloat.inf ∧
      to_float Cell.ninf = some PyFloat.ninf ∧
      (pyStrip s = "" ∨ SENTINELS.contains (pyLower (pyStrip s)) = true →
        to_float (Cell.str s) = none) ∧
      (pyStrip s ≠ "" → SENTINELS.contains (pyLower (pyStrip s)) = false →
        to_float (Cell.str s) = parsePyFloat (pyStrip s)) := by
  intro q s
  refine ⟨rfl, rfl, rfl, rfl, rfl, rfl, ?_, ?_⟩
  · rintro (h | h)
    · simp [to_float, h]
    · have hm : pyLower (pyStrip s) ∈ SENTINELS := by simpa using h
      by_cases he : pyStrip s = "" <;> simp [to_float, he, hm]
  · intro h1 h2
    have hm : pyLower (pyStrip s) ∉ SENTINELS := by simpa using h2
    simp [to_float, h1, hm]

set_option maxHeartbeats 4000000 in
/-- Witness for C8: the sentinel n/a with blanks and mixed case coerces
to none; an underscore-grouped number, the Infinity keyword, a signed
inf, a signed nan, a string led by a no-break space, an Arabic-Indic
digit, an exponent written with Arabic-Indic digits and a negative
decimal with exponent all coerce to the values float() gives them; a
misplaced underscore and an alphabetic string coerce to none. -/
theorem to_float_spec_witness :
    ((pyStrip "  N/a " = "" ∨
        SENTINELS.contains (pyLower (pyStrip "  N/a ")) = true) ∧
      to_float (Cell.str "  N/a ") = none) ∧
    ((pyStrip " 1_000 " ≠ "" ∧
        SENTINELS.contains (pyLower (pyStrip " 1_000 ")) = false) ∧
      to_float (Cell.str " 1_000 ") = parsePyFloat (pyStrip " 1_000 ")) ∧
    to_float (Cell.str " 1_000 ") = some (PyFloat.finite 1000) ∧
    to_float (Cell.str "Infinity") = some PyFloat.inf ∧
    to_float (Cell.str "-inf") = some PyFloat.ninf ∧
    to_float (Cell.str "+nan") = some PyFloat.nan ∧
    to_float (Cell.str "\xa05") = some (PyFloat.finite 5) ∧
    to_float (Cell.str "٥") = some (PyFloat.finite 5) ∧
    to_float (Cell.str "١e٢") = some (PyFloat.finite 100) ∧
    to_float (Cell.str "-12.5e-1") = some (PyFloat.finite (-125/100)) ∧
    to_float (Cell.str "1_.5") = none ∧
    to_float (Cell.str "xyz") = none := by
  refine ⟨⟨Or.inr (by decide),
      (to_float_spec 0 "  N/a ").2.2.2.2.2.2.1 (Or.inr (by decide))⟩,
    ⟨⟨by decide, by decide⟩,
      (to_float_spec 0 " 1_000 ").2.2.2.2.2.2.2 (by decide) (by decide)⟩,
    ?_, by decide, by decide, by decide, ?_, ?_, ?_, ?_, by decide,
    by decide⟩ <;>
  · simp [to_float, pyStrip, isPySpace, PY_SPACE_RANGES, SENTINELS, pyLower,
      parsePyFloat, undOk, undOkAux, isPyDigit, decDigit, PY_DIGIT_BASES,
      pyDigitsVal, parseExpPart]
    try norm_num

set_option maxRecDepth 10000 in
/-- C7 counterexample: rendering a template holding a title element for
the Symbol AAPL writes the page title Stock Details - AAPL, which is not
the Symbol itself, so render_html does not set the page title to the
Symbol. -/
theorem title_not_symbol_cex :
    textFirst isTitleTag
      (render_doc claimDoc "AAPL" (fun _ => none) (fun _ => none) "") =
      some "Stock Details - AAPL" ∧
    ¬ textFirst isTitleTag
      (render_doc claimDoc "AAPL" (fun _ => none) (fun _ => none) "") =
      some "AAPL" := by
  constructor <;> decide

/-- C9: render_html is a function of its five arguments alone: two calls
on equal templates, symbols, records, medians and asset paths return
byte-identical strings; the embedding is pure, so nothing is mutated. -/
theorem render_html_deterministic :
    ∀ (t1 t2 : NodeList) (s1 s2 : String)
      (d1 d2 m1 m2 : String → Option ℚ) (p1 p2 : String),
      t1 = t2 → s1 = s2 → d1 = d2 → m1 = m2 → p1 = p2 →
      render_html t1 s1 d1 m1 p1 = render_html t2 s2 d2 m2 p2 := by
  intro t1 t2 s1 s2 d1 d2 m1 m2 p1 p2 ht hs hd hm hp
  rw [ht, hs, hd, hm, hp]

/-- Witness for C9: two renders of the same concrete template and symbol
coincide. -/
theorem render_html_deterministic_witness :
    render_html claimDoc "AAPL" (fun _ => none) (fun _ => none) "" =
      render_html claimDoc "AAPL" (fun _ => none) (fun _ => none) "" :=
  render_html_deterministic claimDoc claimDoc "AAPL" "AAPL"
    (fun _ => none) (fun _ => none) (fun _ => none) (fun _ => none) "" ""
    rfl rfl rfl rfl rfl

/-- C10: every score pair maps to one of good, mixed, poor, so the tier
label render_html writes through scoreLabelText is always Strong, Mixed
or Weak and never the Neutral fallback. -/
theorem chip_class_total_spec :
    ∀ above total : ℕ,
      (get_score_chip_class above total = "good" ∨
        get_score_chip_class above total = "mixed" ∨
        get_score_chip_class above total = "poor") ∧
      scoreLabelText (get_score_chip_class above total) ≠ "Neutral" ∧
      (scoreLabelText (get_score_chip_class above total) = "Strong" ∨
        scoreLabelText (get_score_chip_class above total) = "Mixed" ∨
        scoreLabelText (get_score_chip_class above total) = "Weak") := by
  intro above total
  have h : get_score_chip_class above total = "good" ∨
      get_score_chip_class above total = "mixed" ∨
      get_score_chip_class above total = "poor" := by
    by_cases h0 : total = 0
    · right; left; simp [get_score_chip_class, h0]
    · by_cases h7 : (7 : ℚ) / 10 ≤ (above : ℚ) / (total : ℚ)
      · left; simp [get_score_chip_class, h0, h7]
      · by_cases h4 : (4 : ℚ) / 10 ≤ (above : ℚ) / (total : ℚ)
        · right; left; simp [get_score_chip_class, h0, h7, h4]
        · right; right; simp [get_score_chip_class, h0, h7, h4]
  refine ⟨h, ?_, ?_⟩
  · rcases h with h | h | h <;> rw [h] <;> simp [scoreLabelText]
  · rcases h with h | h | h <;> rw [h] <;> simp [scoreLabelText]


theorem anyL_false_iff (g : EPred) (d : NodeList) :
    anyL g d = false ↔ findFirstL g d = none := by
  unfold anyL
  cases findFirstL g d <;> simp

mutual

theorem updFirstN_noop (g : EPred) (u : String → Attrs → NodeList → Node) :
    ∀ n : Node, findFirstN g n = none → updFirstN g u n = (n, false)
  | .text t => fun _ => rfl
  | .elem tg a c => fun h => by
    by_cases hg : g tg a = true
    · simp only [findFirstN, if_pos hg] at h
      exact absurd h (by simp)
    · simp only [findFirstN, if_neg hg] at h
      simp only [updFirstN, if_neg hg, updFirstL_noop g u c h]

theorem updFirstL_noop (g : EPred) (u : String → Attrs → NodeList → Node) :
    ∀ d : NodeList, findFirstL g d = none → updFirstL g u d = (d, false)
  | .nil => fun _ => rfl
  | .cons n rest => fun h => by
    cases hn : findFirstN g n with
    | some x => rw [findFirstL, hn] at h; exact absurd h (by simp)
    | none =>
      rw [findFirstL, hn] at h
      simp only [updFirstL, updFirstN_noop g u n hn, updFirstL_noop g u rest h]

end

theorem textOnly_findFirst (g : EPred) : ∀ d : NodeList,
    textOnlyL d = true → findFirstL g d = none
  | .nil => fun _ => rfl
  | .cons (.text t) r => fun h => by
    rw [textOnlyL] at h
    rw [findFirstL]
    simp only [findFirstN]
    exact textOnly_findFirst g r h
  | .cons (.elem tg a c) r => fun h => by
    simp [textOnlyL] at h

theorem str_append_empty (s : String) : s ++ "" = s := by
  cases s with
  | mk l => show String.mk (l ++ []) = String.mk l
            rw [List.append_nil]

mutual

theorem updFirstN_setStr (g : EPred) (s : String) :
    ∀ n : Node, (findFirstN g n).isSome = true →
      (updFirstN g (setStringU s) n).2 = true ∧
      (findFirstN g (updFirstN g (setStringU s) n).1).map textN = some s
  | .text t => fun h => by simp [findFirstN] at h
  | .elem tg a c => fun h => by
    by_cases hg : g tg a = true
    · refine ⟨by simp [updFirstN, hg], ?_⟩
      simp only [updFirstN, if_pos hg, setStringU]
      simp only [findFirstN, if_pos hg, Option.map_some]
      simp [textN, textL, str_append_empty]
    · simp only [findFirstN, if_neg hg] at h
      have ih := updFirstL_setStr g s c h
      refine ⟨?_, ?_⟩
      · simp only [updFirstN, if_neg hg]
        exact ih.1
      · simp only [updFirstN, if_neg hg]
        simp only [findFirstN, if_neg hg]
        exact ih.2

theorem updFirstL_setStr (g : EPred) (s : String) :
    ∀ d : NodeList, (findFirstL g d).isSome = true →
      (updFirstL g (setStringU s) d).2 = true ∧
      (findFirstL g (updFirstL g (setStringU s) d).1).map textN = some s
  | .nil => fun h => by simp [findFirstL] at h
  | .cons n rest => fun h => by
    cases hn : findFirstN g n with
    | some x =>
      have ih := updFirstN_setStr g s n (by rw [hn]; rfl)
      rcases hu : updFirstN g (setStringU s) n with ⟨n2, b⟩
      rw [hu] at ih
      cases b with
      | false => simp at ih
      | true =>
        refine ⟨by simp [updFirstL, hu], ?_⟩
        simp only [updFirstL, hu]
        have h2 := ih.2
        cases hy : findFirstN g n2 with
        | none => rw [hy] at h2; simp at h2
        | some y =>
          rw [hy] at h2
          rw [findFirstL, hy]
          exact h2
    | none =>
      rw [findFirstL, hn] at h
      have ih := updFirstL_setStr g s rest h
      rcases hr : updFirstL g (setStringU s) rest with ⟨r2, b2⟩
      rw [hr] at ih
      cases b2 with
      | false => simp at ih
      | true =>
        refine ⟨by simp [updFirstL, updFirstN_noop g (setStringU s) n hn, hr], ?_⟩
        simp only [updFirstL, updFirstN_noop g (setStringU s) n hn, hr]
        rw [findFirstL, hn]
        exact ih.2

end

theorem lookup_setAttr (k key v : String) (hne : key ≠ k) :
    ∀ a : Attrs, lookupAttr (setAttr a k v) key = lookupAttr a key
  | [] => by
    simp only [setAttr, lookupAttr]
    rw [if_neg (fun h => hne h.symm)]
  | (k0, v0) :: r => by
    by_cases h0 : k0 = k
    · subst h0
      simp only [setAttr, if_pos rfl, lookupAttr]
      rw [if_neg (fun h => hne h.symm), if_neg (fun h => hne h.symm)]
    · simp only [setAttr, if_neg h0, lookupAttr]
      by_cases hk : k0 = key
      · rw [if_pos hk, if_pos hk]
      · rw [if_neg hk, if_neg hk]
        exact lookup_setAttr k key v hne r

mutual

theorem textN_attr (g : EPred) (f : String → Attrs → Attrs) :
    ∀ n : Node, textN (updFirstN g (attrU f) n).1 = textN n
  | .text t => rfl
  | .elem tg a c => by
    by_cases hg : g tg a = true
    · simp only [updFirstN, if_pos hg, attrU, textN]
    · simp only [updFirstN, if_neg hg, textN]
      exact textL_attr g f c

theorem textL_attr (g : EPred) (f : String → Attrs → Attrs) :
    ∀ d : NodeList, textL (updFirstL g (attrU f) d).1 = textL d
  | .nil => rfl
  | .cons n rest => by
    rcases hu : updFirstN g (attrU f) n with ⟨n2, b⟩
    have hn2 : textN n2 = textN n := by
      have h0 := textN_attr g f n
      rw [hu] at h0
      exact h0
    cases b with
    | true =>
      simp only [updFirstL, hu, textL, hn2]
    | false =>
      rcases hr : updFirstL g (attrU f) rest with ⟨r2, b2⟩
      have hr2 : textL r2 = textL rest := by
        have h0 := textL_attr g f rest
        rw [hr] at h0
        exact h0
      simp only [updFirstL, hu, hr, textL, hn2, hr2]

end

mutual

theorem updN_attr_pres (g : EPred) (f : String → Attrs → Attrs) (q : EPred)
    (Hq : ∀ tg a, q tg (f tg a) = q tg a) :
    ∀ n : Node, (findFirstN q (updFirstN g (attrU f) n).1).map textN =
      (findFirstN q n).map textN
  | .text t => rfl
  | .elem tg a c => by
    by_cases hg : g tg a = true
    · simp only [updFirstN, if_pos hg, attrU]
      by_cases hq : q tg a = true
      · rw [findFirstN, findFirstN, if_pos (by rw [Hq]; exact hq), if_pos hq]
        simp [textN]
      · rw [findFirstN, findFirstN, if_neg (by rw [Hq]; exact hq), if_neg hq]
    · simp only [updFirstN, if_neg hg]
      by_cases hq : q tg a = true
      · rw [findFirstN, findFirstN, if_pos hq, if_pos hq]
        simp [textN, textL_attr g f c]
      · rw [findFirstN, findFirstN, if_neg hq, if_neg hq]
        exact updL_attr_pres g f q Hq c

theorem updL_attr_pres (g : EPred) (f : String → Attrs → Attrs) (q : EPred)
    (Hq : ∀ tg a, q tg (f tg a) = q tg a) :
    ∀ d : NodeList, (findFirstL q (updFirstL g (attrU f) d).1).map textN =
      (findFirstL q d).map textN
  | .nil => rfl
  | .cons n rest => by
    rcases hu : updFirstN g (attrU f) n with ⟨n2, b⟩
    have hn2 : (findFirstN q n2).map textN = (findFirstN q n).map textN := by
      have h0 := updN_attr_pres g f q Hq n
      rw [hu] at h0
      exact h0
    cases b with
    | true =>
      simp only [updFirstL, hu]
      rw [findFirstL, findFirstL]
      cases hy : findFirstN q n with
      | some y =>
        rw [hy] at hn2
        cases hy2 : findFirstN q n2 with
        | none => rw [hy2] at hn2; simp at hn2
        | some y2 =>
          rw [hy2] at hn2
          simpa using hn2
      | none =>
        rw [hy] at hn2
        have : findFirstN q n2 = none := by
          cases hy2 : findFirstN q n2 with
          | none => rfl
          | some y2 => rw [hy2] at hn2; simp at hn2
        rw [this]
    | false =>
      rcases hr : updFirstL g (attrU f) rest with ⟨r2, b2⟩
      have hr2 : (findFirstL q r2).map textN = (findFirstL q rest).map textN := by
        have h0 := updL_attr_pres g f q Hq rest
        rw [hr] at h0
        exact h0
      simp only [updFirstL, hu, hr]
      rw [findFirstL, findFirstL]
      cases hy : findFirstN q n with
      | some y =>
        rw [hy] at hn2
        cases hy2 : findFirstN q n2 with
        | none => rw [hy2] at hn2; simp at hn2
        | some y2 =>
          rw [hy2] at hn2
          simpa using hn2
      | none =>
        rw [hy] at hn2
        have : findFirstN q n2 = none := by
          cases hy2 : findFirstN q n2 with
          | none => rfl
          | some y2 => rw [hy2] at hn2; simp at hn2
        rw [this]
        exact hr2

end

mutual

theorem textN_updAll (g : EPred) (f : String → Attrs → Attrs) :
    ∀ n : Node, textN (updAllAN g f n) = textN n
  | .text t => rfl
  | .elem tg a c => by
    simp only [updAllAN, textN]
    exact textL_updAll g f c

theorem textL_updAll (g : EPred) (f : String → Attrs → Attrs) :
    ∀ d : NodeList, textL (updAllAL g f d) = textL d
  | .nil => rfl
  | .cons n r => by
    simp only [updAllAL, textL, textN_updAll g f n, textL_updAll g f r]

end

mutual

theorem updAllN_pres (g : EPred) (f : String → Attrs → Attrs) (q : EPred)
    (Hq : ∀ tg a, q tg (f tg a) = q tg a) :
    ∀ n : Node, (findFirstN q (updAllAN g f n)).map textN =
      (findFirstN q n).map textN
  | .text t => rfl
  | .elem tg a c => by
    simp only [updAllAN]
    have hqe : q tg (if g tg a = true then f tg a else a) = q tg a := by
      by_cases hg : g tg a = true
      · rw [if_pos hg, Hq]
      · rw [if_neg hg]
    by_cases hq : q tg a = true
    · rw [findFirstN, findFirstN, if_pos (by rw [hqe]; exact hq), if_pos hq]
      simp [textN, textL_updAll g f c]
    · rw [findFirstN, findFirstN, if_neg (by rw [hqe]; exact hq), if_neg hq]
      exact updAllL_pres g f q Hq c

theorem updAllL_pres (g : EPred) (f : String → Attrs → Attrs) (q : EPred)
    (Hq : ∀ tg a, q tg (f tg a) = q tg a) :
    ∀ d : NodeList, (findFirstL q (updAllAL g f d)).map textN =
      (findFirstL q d).map textN
  | .nil => rfl
  | .cons n r => by
    simp only [updAllAL]
    rw [findFirstL, findFirstL]
    have hn2 := updAllN_pres g f q Hq n
    cases hy : findFirstN q n with
    | some y =>
      rw [hy] at hn2
      cases hy2 : findFirstN q (updAllAN g f n) with
      | none => rw [hy2] at hn2; simp at hn2
      | some y2 =>
        rw [hy2] at hn2
        simpa using hn2
    | none =>
      rw [hy] at hn2
      have h3 : findFirstN q (updAllAN g f n) = none := by
        cases hy2 : findFirstN q (updAllAN g f n) with
        | none => rfl
        | some y2 => rw [hy2] at hn2; simp at hn2
      rw [h3]
      exact updAllL_pres g f q Hq r

end

theorem hid_bodyFix (symbol i : String) : ∀ (tg : String) (a : Attrs),
    hid i tg (bodyAttrsFix symbol tg a) = hid i tg a := by
  intro tg a
  simp only [hid, bodyAttrsFix]
  rw [lookup_setAttr "data-prerendered" "id" "1" (by decide),
    lookup_setAttr "data-stock-symbol" "id" symbol (by decide)]

theorem hid_linkFix (ap i : String) : ∀ (tg : String) (a : Attrs),
    hid i tg (linkFix ap tg a) = hid i tg a := by
  intro tg a
  simp only [hid, linkFix]
  by_cases hc : pyStrip ((lookupAttr a "href").getD "") == "styles.css"
  · rw [if_pos hc, lookup_setAttr "href" "id" _ (by decide)]
  · rw [if_neg hc]

theorem hid_scriptFix (ap i : String) : ∀ (tg : String) (a : Attrs),
    hid i tg (scriptFix ap tg a) = hid i tg a := by
  intro tg a
  simp only [hid, scriptFix]
  by_cases hc : strStarts (pyStrip ((lookupAttr a "src").getD "")) "js/" = true
  · rw [if_pos hc, lookup_setAttr "src" "id" _ (by decide)]
  · rw [if_neg hc]

theorem hid_aFix (ap i : String) : ∀ (tg : String) (a : Attrs),
    hid i tg (aFix ap tg a) = hid i tg a := by
  intro tg a
  simp only [hid, aFix]
  by_cases hc : pyStrip ((lookupAttr a "href").getD "") == "index.html"
  · rw [if_pos hc, lookup_setAttr "href" "id" _ (by decide)]
  · rw [if_neg hc]

theorem some_beq_some (i j : String) :
    ((some i == some j) : Bool) = (i == j) := rfl

theorem hid_eq_some {i tg : String} {a : Attrs} (h : hid i tg a = true) :
    lookupAttr a "id" = some i := by
  have h2 : (lookupAttr a "id" == some i) = true := h
  exact eq_of_beq h2

theorem hid_of_lookup {i j tg : String} {a : Attrs}
    (hl : lookupAttr a "id" = some j) (hne : (j == i) = false) :
    hid i tg a = false := by
  show (lookupAttr a "id" == some i) = false
  rw [hl, some_beq_some]
  exact hne

theorem hasId_of_hid {i tg : String} {a : Attrs} (h : hid i tg a = true) :
    hasIdAttr tg a = true := by
  show (lookupAttr a "id").isSome = true
  rw [hid_eq_some h]
  rfl

mutual

theorem mono_absent_N (q1 q2 : EPred)
    (H : ∀ tg a, q1 tg a = true → q2 tg a = true) :
    ∀ n : Node, findFirstN q2 n = none → findFirstN q1 n = none
  | .text t => fun _ => rfl
  | .elem tg a c => fun h => by
    have hq2 : q2 tg a = false := by
      cases hx : q2 tg a
      · rfl
      · rw [findFirstN, if_pos hx] at h; exact absurd h (by simp)
    rw [findFirstN, if_neg (by simp [hq2])] at h
    have hq1 : q1 tg a = false := by
      cases hx : q1 tg a
      · rfl
      · rw [H tg a hx] at hq2; exact absurd hq2 (by simp)
    rw [findFirstN, if_neg (by simp [hq1])]
    exact mono_absent_L q1 q2 H c h

theorem mono_absent_L (q1 q2 : EPred)
    (H : ∀ tg a, q1 tg a = true → q2 tg a = true) :
    ∀ d : NodeList, findFirstL q2 d = none → findFirstL q1 d = none
  | .nil => fun _ => rfl
  | .cons n rest => fun h => by
    rw [findFirstL] at h
    cases hy : findFirstN q2 n with
    | some y => rw [hy] at h; exact absurd h (by simp)
    | none =>
      rw [hy] at h
      rw [findFirstL, mono_absent_N q1 q2 H n hy]
      exact mono_absent_L q1 q2 H rest h

end

theorem appendL_absent (q : EPred) (n : Node) :
    ∀ d : NodeList, findFirstL q d = none → findFirstN q n = none →
      findFirstL q (appendL d n) = none
  | .nil => fun _ hn => by
    rw [appendL, findFirstL, hn]
    rfl
  | .cons x r => fun h hn => by
    rw [findFirstL] at h
    cases hy : findFirstN q x with
    | some y => rw [hy] at h; exact absurd h (by simp)
    | none =>
      rw [hy] at h
      rw [appendL, findFirstL, hy]
      exact appendL_absent q n r h hn

theorem appendL_wf (n : Node) :
    ∀ d : NodeList, wfL d = true → wfN n = true →
      wfL (appendL d n) = true
  | .nil => fun _ hn => by simp [appendL, wfL, hn]
  | .cons x r => fun h hn => by
    rw [wfL, Bool.and_eq_true] at h
    rw [appendL, wfL, Bool.and_eq_true]
    exact ⟨h.1, appendL_wf n r h.2 hn⟩

mutual

theorem appH2N_nf (chip : Node) :
    ∀ n : Node, (appH2N chip n).2 = false → (appH2N chip n).1 = n
  | .text t => fun _ => rfl
  | .elem tg a c => fun h => by
    by_cases hh : (tg == "h2") = true
    · simp only [appH2N, if_pos hh] at h
      exact absurd h (by simp)
    · simp only [appH2N, if_neg hh] at h ⊢
      exact congrArg (fun x => Node.elem tg a x) (appH2L_nf chip c h)

theorem appH2L_nf (chip : Node) :
    ∀ d : NodeList, (appH2L chip d).2 = false → (appH2L chip d).1 = d
  | .nil => fun _ => rfl
  | .cons n rest => fun h => by
    rcases hn : appH2N chip n with ⟨n2, b⟩
    cases b with
    | true => simp only [appH2L, hn] at h; simp at h
    | false =>
      rcases hr : appH2L chip rest with ⟨r2, b2⟩
      simp only [appH2L, hn, hr] at h ⊢
      have h1 : n2 = n := by
        have h3 := appH2N_nf chip n
        rw [hn] at h3
        exact h3 rfl
      have h2 : r2 = rest := by
        have h3 := appH2L_nf chip rest
        rw [hr] at h3
        exact h3 h
      simp [h1, h2]

end

mutual

theorem appH2N_noop (chip : Node) :
    ∀ n : Node, findFirstN (fun t _ => t == "h2") n = none →
      appH2N chip n = (n, false)
  | .text t => fun _ => rfl
  | .elem tg a c => fun h => by
    by_cases hh : (tg == "h2") = true
    · rw [findFirstN, if_pos hh] at h
      exact absurd h (by simp)
    · rw [findFirstN, if_neg hh] at h
      simp only [appH2N, if_neg hh, appH2L_noop chip c h]

theorem appH2L_noop (chip : Node) :
    ∀ d : NodeList, findFirstL (fun t _ => t == "h2") d = none →
      appH2L chip d = (d, false)
  | .nil => fun _ => rfl
  | .cons n rest => fun h => by
    rw [findFirstL] at h
    cases hy : findFirstN (fun t _ => t == "h2") n with
    | some x => rw [hy] at h; exact absurd h (by simp)
    | none =>
      rw [hy] at h
      simp only [appH2L, appH2N_noop chip n hy, appH2L_noop chip rest h]

end

mutual

theorem appH2N_absent (chip : Node) (q : EPred)
    (hchip : findFirstN q chip = none) :
    ∀ n : Node, findFirstN q n = none → findFirstN q (appH2N chip n).1 = none
  | .text t => fun _ => rfl
  | .elem tg a c => fun h => by
    have hq : q tg a = false := by
      cases hx : q tg a
      · rfl
      · rw [findFirstN, if_pos hx] at h; exact absurd h (by simp)
    rw [findFirstN, if_neg (by simp [hq])] at h
    by_cases hh : (tg == "h2") = true
    · simp only [appH2N, if_pos hh]
      rw [findFirstN, if_neg (by simp [hq])]
      exact appendL_absent q chip c h hchip
    · simp only [appH2N, if_neg hh]
      rw [findFirstN, if_neg (by simp [hq])]
      exact appH2L_absent chip q hchip c h

theorem appH2L_absent (chip : Node) (q : EPred)
    (hchip : findFirstN q chip = none) :
    ∀ d : NodeList, findFirstL q d = none →
      findFirstL q (appH2L chip d).1 = none
  | .nil => fun _ => rfl
  | .cons n rest => fun h => by
    rw [findFirstL] at h
    cases hy : findFirstN q n with
    | some x => rw [hy] at h; exact absurd h (by simp)
    | none =>
      rw [hy] at h
      rcases hn : appH2N chip n with ⟨n2, b⟩
      have hn2 : findFirstN q n2 = none := by
        have h0 := appH2N_absent chip q hchip n hy
        rw [hn] at h0
        exact h0
      cases b with
      | true =>
        simp only [appH2L, hn]
        rw [findFirstL, hn2]
        exact h
      | false =>
        rcases hr : appH2L chip rest with ⟨r2, b2⟩
        have hr2 : findFirstL q r2 = none := by
          have h0 := appH2L_absent chip q hchip rest h
          rw [hr] at h0
          exact h0
        simp only [appH2L, hn, hr]
        rw [findFirstL, hn2]
        exact hr2

end

theorem bnot_true {b : Bool} (h : (!b) = true) : b = false := by
  cases b
  · rfl
  · simp at h

mutual

theorem appH2N_wf (chip : Node) (hchipwf : wfN chip = true)
    (hchipT : findFirstN isTitleTag chip = none)
    (hchipH : findFirstN (hid "stock-symbol-header") chip = none)
    (hchipI : findFirstN hasIdAttr chip = none) :
    ∀ n : Node, wfN n = true → wfN (appH2N chip n).1 = true
  | .text t => fun _ => rfl
  | .elem tg a c => fun hwf => by
    rw [wfN, Bool.and_eq_true, Bool.and_eq_true] at hwf
    obtain ⟨⟨hT, hI⟩, hC⟩ := hwf
    by_cases hh : (tg == "h2") = true
    · have htg : tg = "h2" := eq_of_beq hh
      subst htg
      simp only [appH2N, if_pos hh]
      rw [wfN, Bool.and_eq_true, Bool.and_eq_true]
      refine ⟨⟨rfl, ?_⟩, appendL_wf chip c hC hchipwf⟩
      have happ : ∀ q : EPred, findFirstN q chip = none → anyL q c = false →
          anyL q (appendL c chip) = false := by
        intro q hq hac
        exact (anyL_false_iff _ _).mpr
          (appendL_absent q chip c ((anyL_false_iff _ _).mp hac) hq)
      cases hl : lookupAttr a "id" with
      | none => simp [hl]
      | some j =>
        simp only [hl] at hI ⊢
        by_cases hj : (j == "stock-symbol-header") = true
        · rw [if_pos hj] at hI ⊢
          rw [Bool.and_eq_true, Bool.and_eq_true] at hI
          obtain ⟨⟨h1, h2⟩, h3⟩ := hI
          rw [Bool.and_eq_true, Bool.and_eq_true]
          refine ⟨⟨h1, ?_⟩, ?_⟩
          · rw [happ _ hchipT (bnot_true h2)]
            rfl
          · rw [happ _ hchipI (bnot_true h3)]
            rfl
        · rw [if_neg hj] at hI ⊢
          rw [Bool.and_eq_true, Bool.and_eq_true] at hI
          obtain ⟨⟨h1, h2⟩, h3⟩ := hI
          rw [Bool.and_eq_true, Bool.and_eq_true]
          refine ⟨⟨h1, ?_⟩, ?_⟩
          · rw [happ _ hchipT (bnot_true h2)]
            rfl
          · rw [happ _ hchipH (bnot_true h3)]
            rfl
    · by_cases ht2 : (tg == "title") = true
      · rw [if_pos ht2, Bool.and_eq_true] at hT
        obtain ⟨ha, htx⟩ := hT
        have hno : findFirstL (fun t _ => t == "h2") c =
            none := textOnly_findFirst _ c htx
        simp only [appH2N, if_neg hh, appH2L_noop chip c hno]
        rw [wfN, Bool.and_eq_true, Bool.and_eq_true]
        refine ⟨⟨?_, hI⟩, hC⟩
        rw [if_pos ht2, Bool.and_eq_true]
        exact ⟨ha, htx⟩
      · rcases hr : appH2L chip c with ⟨r2, b2⟩
        have hr2wf : wfL r2 = true := by
          have h0 := appH2L_wf chip hchipwf hchipT hchipH hchipI c hC
          rw [hr] at h0
          exact h0
        have habs : ∀ q : EPred, findFirstN q chip = none → anyL q c = false →
            anyL q r2 = false := by
          intro q hq hac
          have h0 := appH2L_absent chip q hq c ((anyL_false_iff _ _).mp hac)
          rw [hr] at h0
          exact (anyL_false_iff _ _).mpr h0
        simp only [appH2N, if_neg hh, hr]
        rw [wfN, Bool.and_eq_true, Bool.and_eq_true]
        refine ⟨⟨by rw [if_neg ht2], ?_⟩, hr2wf⟩
        cases hl : lookupAttr a "id" with
        | none => simp [hl]
        | some j =>
          simp only [hl] at hI ⊢
          by_cases hj : (j == "stock-symbol-header") = true
          · rw [if_pos hj] at hI ⊢
            rw [Bool.and_eq_true, Bool.and_eq_true] at hI
            obtain ⟨⟨h1, h2⟩, h3⟩ := hI
            rw [Bool.and_eq_true, Bool.and_eq_true]
            refine ⟨⟨h1, ?_⟩, ?_⟩
            · rw [habs _ hchipT (bnot_true h2)]
              rfl
            · rw [habs _ hchipI (bnot_true h3)]
              rfl
          · rw [if_neg hj] at hI ⊢
            rw [Bool.and_eq_true, Bool.and_eq_true] at hI
            obtain ⟨⟨h1, h2⟩, h3⟩ := hI
            rw [Bool.and_eq_true, Bool.and_eq_true]
            refine ⟨⟨h1, ?_⟩, ?_⟩
            · rw [habs _ hchipT (bnot_true h2)]
              rfl
            · rw [habs _ hchipH (bnot_true h3)]
              rfl

theorem appH2L_wf (chip : Node) (hchipwf : wfN chip = true)
    (hchipT : findFirstN isTitleTag chip = none)
    (hchipH : findFirstN (hid "stock-symbol-header") chip = none)
    (hchipI : findFirstN hasIdAttr chip = none) :
    ∀ d : NodeList, wfL d = true → wfL (appH2L chip d).1 = true
  | .nil => fun _ => rfl
  | .cons n rest => fun hwf => by
    rw [wfL, Bool.and_eq_true] at hwf
    obtain ⟨h1, h2⟩ := hwf
    rcases hn : appH2N chip n with ⟨n2, b⟩
    have hn2 : wfN n2 = true := by
      have h0 := appH2N_wf chip hchipwf hchipT hchipH hchipI n h1
      rw [hn] at h0
      exact h0
    cases b with
    | true =>
      simp only [appH2L, hn]
      rw [wfL, Bool.and_eq_true]
      exact ⟨hn2, h2⟩
    | false =>
      rcases hr : appH2L chip rest with ⟨r2, b2⟩
      have hr2 : wfL r2 = true := by
        have h0 := appH2L_wf chip hchipwf hchipT hchipH hchipI rest h2
        rw [hr] at h0
        exact h0
      simp only [appH2L, hn, hr]
      rw [wfL, Bool.and_eq_true]
      exact ⟨hn2, hr2⟩

end

mutual

theorem updN_ph (i : String) (hne : (i == "stock-symbol-header") = false)
    (u : String → Attrs → NodeList → Node)
    (HuT : ∀ tg a c, lookupAttr a "id" = some i → (tg == "title") = false →
      findFirstL isTitleTag c = none → findFirstN isTitleTag (u tg a c) = none)
    (HuH : ∀ tg a c, lookupAttr a "id" = some i →
      findFirstL (hid "stock-symbol-header") c = none →
      findFirstN (hid "stock-symbol-header") (u tg a c) = none)
    (HuW : ∀ tg a c, lookupAttr a "id" = some i → (tg == "title") = false →
      findFirstL isTitleTag c = none →
      findFirstL (hid "stock-symbol-header") c = none →
      wfL c = true → wfN (u tg a c) = true) :
    ∀ n : Node, wfN n = true →
      findFirstN isTitleTag (updFirstN (hid i) u n).1 =
        findFirstN isTitleTag n ∧
      findFirstN (hid "stock-symbol-header") (updFirstN (hid i) u n).1 =
        findFirstN (hid "stock-symbol-header") n ∧
      wfN (updFirstN (hid i) u n).1 = true
  | .text t => fun _ => ⟨rfl, rfl, rfl⟩
  | .elem tg a c => fun hwf => by
    rw [wfN, Bool.and_eq_true, Bool.and_eq_true] at hwf
    obtain ⟨⟨hT, hI⟩, hC⟩ := hwf
    by_cases hg : hid i tg a = true
    · have hl : lookupAttr a "id" = some i := hid_eq_some hg
      simp only [hl] at hI
      rw [if_neg (by simp [hne])] at hI
      rw [Bool.and_eq_true, Bool.and_eq_true] at hI
      obtain ⟨⟨hnt, hnoT⟩, hnoH⟩ := hI
      have hnt2 : (tg == "title") = false := bnot_true hnt
      have hcT : findFirstL isTitleTag c = none :=
        (anyL_false_iff _ _).mp (bnot_true hnoT)
      have hcH : findFirstL (hid "stock-symbol-header") c = none :=
        (anyL_false_iff _ _).mp (bnot_true hnoH)
      simp only [updFirstN, if_pos hg]
      refine ⟨?_, ?_, HuW tg a c hl hnt2 hcT hcH hC⟩
      · rw [HuT tg a c hl hnt2 hcT]
        rw [findFirstN, if_neg (by simp [isTitleTag, hnt2]), hcT]
      · rw [HuH tg a c hl hcH]
        rw [findFirstN, if_neg (by simp [hid_of_lookup hl hne]), hcH]
    · by_cases ht2 : (tg == "title") = true
      · rw [if_pos ht2, Bool.and_eq_true] at hT
        obtain ⟨ha, htx⟩ := hT
        have hno : findFirstL (hid i) c = none := textOnly_findFirst _ c htx
        simp only [updFirstN, if_neg hg, updFirstL_noop _ _ c hno]
        refine ⟨trivial, trivial, ?_⟩
        rw [wfN, Bool.and_eq_true, Bool.and_eq_true]
        refine ⟨⟨?_, hI⟩, hC⟩
        rw [if_pos ht2, Bool.and_eq_true]
        exact ⟨ha, htx⟩
      · by_cases hq : hid "stock-symbol-header" tg a = true
        · have hlh : lookupAttr a "id" = some "stock-symbol-header" :=
            hid_eq_some hq
          simp only [hlh] at hI
          rw [if_pos (by rfl)] at hI
          rw [Bool.and_eq_true, Bool.and_eq_true] at hI
          obtain ⟨⟨hnt, hnoT⟩, hnoI⟩ := hI
          have hidf : findFirstL hasIdAttr c = none :=
            (anyL_false_iff _ _).mp (bnot_true hnoI)
          have hno : findFirstL (hid i) c = none :=
            mono_absent_L (hid i) hasIdAttr
              (fun tg2 a2 h2 => hasId_of_hid h2) c hidf
          simp only [updFirstN, if_neg hg, updFirstL_noop _ _ c hno]
          refine ⟨trivial, trivial, ?_⟩
          rw [wfN, Bool.and_eq_true, Bool.and_eq_true]
          refine ⟨⟨by rw [if_neg ht2], ?_⟩, hC⟩
          simp only [hlh]
          rw [if_pos (by rfl), Bool.and_eq_true, Bool.and_eq_true]
          exact ⟨⟨hnt, hnoT⟩, hnoI⟩
        · rcases hr : updFirstL (hid i) u c with ⟨r2, b2⟩
          have ih := updL_ph i hne u HuT HuH HuW c hC
          rw [hr] at ih
          obtain ⟨ihT, ihH, ihW⟩ := ih
          simp only [updFirstN, if_neg hg, hr]
          refine ⟨?_, ?_, ?_⟩
          · rw [findFirstN, findFirstN, if_neg (by simp [isTitleTag, ht2]),
              if_neg (by simp [isTitleTag, ht2])]
            exact ihT
          · rw [findFirstN, findFirstN, if_neg hq, if_neg hq]
            exact ihH
          · rw [wfN, Bool.and_eq_true, Bool.and_eq_true]
            refine ⟨⟨by rw [if_neg ht2], ?_⟩, ihW⟩
            cases hl : lookupAttr a "id" with
            | none => simp [hl]
            | some j =>
              simp only [hl] at hI ⊢
              by_cases hj : (j == "stock-symbol-header") = true
              · exfalso
                apply hq
                show (lookupAttr a "id" == some "stock-symbol-header") = true
                rw [hl, some_beq_some]
                exact hj
              · rw [if_neg hj] at hI ⊢
                rw [Bool.and_eq_true, Bool.and_eq_true] at hI
                obtain ⟨⟨h1, h2⟩, h3⟩ := hI
                rw [Bool.and_eq_true, Bool.and_eq_true]
                have hteq : anyL isTitleTag r2 = anyL isTitleTag c := by
                  unfold anyL
                  rw [ihT]
                have hheq : anyL (hid "stock-symbol-header") r2 =
                    anyL (hid "stock-symbol-header") c := by
                  unfold anyL
                  rw [ihH]
                refine ⟨⟨h1, ?_⟩, ?_⟩
                · rw [hteq]
                  exact h2
                · rw [hheq]
                  exact h3

theorem updL_ph (i : String) (hne : (i == "stock-symbol-header") = false)
    (u : String → Attrs → NodeList → Node)
    (HuT : ∀ tg a c, lookupAttr a "id" = some i → (tg == "title") = false →
      findFirstL isTitleTag c = none → findFirstN isTitleTag (u tg a c) = none)
    (HuH : ∀ tg a c, lookupAttr a "id" = some i →
      findFirstL (hid "stock-symbol-header") c = none →
      findFirstN (hid "stock-symbol-header") (u tg a c) = none)
    (HuW : ∀ tg a c, lookupAttr a "id" = some i → (tg == "title") = false →
      findFirstL isTitleTag c = none →
      findFirstL (hid "stock-symbol-header") c = none →
      wfL c = true → wfN (u tg a c) = true) :
    ∀ d : NodeList, wfL d = true →
      findFirstL isTitleTag (updFirstL (hid i) u d).1 =
        findFirstL isTitleTag d ∧
      findFirstL (hid "stock-symbol-header") (updFirstL (hid i) u d).1 =
        findFirstL (hid "stock-symbol-header") d ∧
      wfL (updFirstL (hid i) u d).1 = true
  | .nil => fun _ => ⟨rfl, rfl, rfl⟩
  | .cons n rest => fun hwf => by
    rw [wfL, Bool.and_eq_true] at hwf
    obtain ⟨h1, h2⟩ := hwf
    rcases hn : updFirstN (hid i) u n with ⟨n2, b⟩
    have ihn := updN_ph i hne u HuT HuH HuW n h1
    rw [hn] at ihn
    obtain ⟨inT, inH, inW⟩ := ihn
    cases b with
    | true =>
      simp only [updFirstL, hn]
      refine ⟨?_, ?_, ?_⟩
      · rw [findFirstL, findFirstL, inT]
      · rw [findFirstL, findFirstL, inH]
      · rw [wfL, Bool.and_eq_true]
        exact ⟨inW, h2⟩
    | false =>
      rcases hr : updFirstL (hid i) u rest with ⟨r2, b2⟩
      have ihr := updL_ph i hne u HuT HuH HuW rest h2
      rw [hr] at ihr
      obtain ⟨irT, irH, irW⟩ := ihr
      simp only [updFirstL, hn, hr]
      refine ⟨?_, ?_, ?_⟩
      · rw [findFirstL, findFirstL, inT, irT]
      · rw [findFirstL, findFirstL, inH, irH]
      · rw [wfL, Bool.and_eq_true]
        exact ⟨inW, irW⟩

end

theorem wrapper_title_free (v m : Option ℚ) (fid : String) :
    findFirstN isTitleTag (metricWrapper v m fid) = none := rfl

theorem wrapper_hdr_free (v m : Option ℚ) (fid : String) :
    findFirstN (hid "stock-symbol-header") (metricWrapper v m fid) = none := rfl

theorem wrapper_wf (v m : Option ℚ) (fid : String) :
    wfN (metricWrapper v m fid) = true := rfl

theorem chip_title_free (a t : ℕ) (cc : String) :
    findFirstN isTitleTag (sectionChip a t cc) = none := rfl

theorem chip_hdr_free (a t : ℕ) (cc : String) :
    findFirstN (hid "stock-symbol-header") (sectionChip a t cc) = none := rfl

theorem chip_hasId_free (a t : ℕ) (cc : String) :
    findFirstN hasIdAttr (sectionChip a t cc) = none := rfl

theorem chip_wf (a t : ℕ) (cc : String) :
    wfN (sectionChip a t cc) = true := rfl

theorem setStrU_T (s : String) : ∀ (tg : String) (a : Attrs) (c : NodeList),
    (tg == "title") = false →
    findFirstN isTitleTag (setStringU s tg a c) = none := by
  intro tg a c ht
  show findFirstN isTitleTag (.elem tg a (.cons (.text s) .nil)) = none
  rw [findFirstN, if_neg (by simp [isTitleTag, ht])]
  rfl

theorem setStrU_H (s i : String) (hne : (i == "stock-symbol-header") = false) :
    ∀ (tg : String) (a : Attrs) (c : NodeList), lookupAttr a "id" = some i →
      findFirstN (hid "stock-symbol-header") (setStringU s tg a c) = none := by
  intro tg a c hl
  show findFirstN (hid "stock-symbol-header")
    (.elem tg a (.cons (.text s) .nil)) = none
  rw [findFirstN, if_neg (by simp [hid_of_lookup hl hne])]
  rfl

theorem setStrU_W (s i : String) (hne : (i == "stock-symbol-header") = false) :
    ∀ (tg : String) (a : Attrs) (c : NodeList), lookupAttr a "id" = some i →
      (tg == "title") = false → wfN (setStringU s tg a c) = true := by
  intro tg a c hl ht
  show wfN (.elem tg a (.cons (.text s) .nil)) = true
  rw [wfN, Bool.and_eq_true, Bool.and_eq_true]
  refine ⟨⟨by rw [if_neg (by simp [ht])], ?_⟩, rfl⟩
  simp only [hl]
  rw [if_neg (by simp [hne]), Bool.and_eq_true, Bool.and_eq_true]
  refine ⟨⟨?_, rfl⟩, rfl⟩
  rw [ht]
  rfl

theorem attrU_T (f : String → Attrs → Attrs) :
    ∀ (tg : String) (a : Attrs) (c : NodeList), (tg == "title") = false →
      findFirstL isTitleTag c = none →
      findFirstN isTitleTag (attrU f tg a c) = none := by
  intro tg a c ht hc
  show findFirstN isTitleTag (.elem tg (f tg a) c) = none
  rw [findFirstN, if_neg (by simp [isTitleTag, ht])]
  exact hc

theorem attrU_H (f : String → Attrs → Attrs)
    (Hf : ∀ tg a, lookupAttr (f tg a) "id" = lookupAttr a "id")
    (i : String) (hne : (i == "stock-symbol-header") = false) :
    ∀ (tg : String) (a : Attrs) (c : NodeList), lookupAttr a "id" = some i →
      findFirstL (hid "stock-symbol-header") c = none →
      findFirstN (hid "stock-symbol-header") (attrU f tg a c) = none := by
  intro tg a c hl hc
  show findFirstN (hid "stock-symbol-header") (.elem tg (f tg a) c) = none
  have hl2 : lookupAttr (f tg a) "id" = some i := by rw [Hf, hl]
  rw [findFirstN, if_neg (by simp [hid_of_lookup hl2 hne])]
  exact hc

theorem attrU_W (f : String → Attrs → Attrs)
    (Hf : ∀ tg a, lookupAttr (f tg a) "id" = lookupAttr a "id")
    (i : String) (hne : (i == "stock-symbol-header") = false) :
    ∀ (tg : String) (a : Attrs) (c : NodeList), lookupAttr a "id" = some i →
      (tg == "title") = false → findFirstL isTitleTag c = none →
      findFirstL (hid "stock-symbol-header") c = none → wfL c = true →
      wfN (attrU f tg a c) = true := by
  intro tg a c hl ht hcT hcH hcW
  show wfN (.elem tg (f tg a) c) = true
  have hl2 : lookupAttr (f tg a) "id" = some i := by rw [Hf, hl]
  rw [wfN, Bool.and_eq_true, Bool.and_eq_true]
  refine ⟨⟨by rw [if_neg (by simp [ht])], ?_⟩, hcW⟩
  simp only [hl2]
  rw [if_neg (by simp [hne]), Bool.and_eq_true, Bool.and_eq_true]
  refine ⟨⟨?_, ?_⟩, ?_⟩
  · rw [ht]
    rfl
  · rw [(anyL_false_iff _ _).mpr hcT]
    rfl
  · rw [(anyL_false_iff _ _).mpr hcH]
    rfl

theorem chipU_T (chip : Node)
    (hchipT : findFirstN isTitleTag chip = none) :
    ∀ (tg : String) (a : Attrs) (c : NodeList), (tg == "title") = false →
      findFirstL isTitleTag c = none →
      findFirstN isTitleTag (chipU chip tg a c) = none := by
  intro tg a c ht hc
  show findFirstN isTitleTag (.elem tg a (appH2L chip c).1) = none
  rw [findFirstN, if_neg (by simp [isTitleTag, ht])]
  exact appH2L_absent chip _ hchipT c hc

theorem chipU_H (chip : Node)
    (hchipH : findFirstN (hid "stock-symbol-header") chip = none)
    (i : String) (hne : (i == "stock-symbol-header") = false) :
    ∀ (tg : String) (a : Attrs) (c : NodeList), lookupAttr a "id" = some i →
      findFirstL (hid "stock-symbol-header") c = none →
      findFirstN (hid "stock-symbol-header") (chipU chip tg a c) = none := by
  intro tg a c hl hc
  show findFirstN (hid "stock-symbol-header") (.elem tg a (appH2L chip c).1) =
    none
  rw [findFirstN, if_neg (by simp [hid_of_lookup hl hne])]
  exact appH2L_absent chip _ hchipH c hc

theorem chipU_W (chip : Node) (hchipwf : wfN chip = true)
    (hchipT : findFirstN isTitleTag chip = none)
    (hchipH : findFirstN (hid "stock-symbol-header") chip = none)
    (hchipI : findFirstN hasIdAttr chip = none)
    (i : String) (hne : (i == "stock-symbol-header") = false) :
    ∀ (tg : String) (a : Attrs) (c : NodeList), lookupAttr a "id" = some i →
      (tg == "title") = false → findFirstL isTitleTag c = none →
      findFirstL (hid "stock-symbol-header") c = none → wfL c = true →
      wfN (chipU chip tg a c) = true := by
  intro tg a c hl ht hcT hcH hcW
  show wfN (.elem tg a (appH2L chip c).1) = true
  rw [wfN, Bool.and_eq_true, Bool.and_eq_true]
  refine ⟨⟨by rw [if_neg (by simp [ht])], ?_⟩,
    appH2L_wf chip hchipwf hchipT hchipH hchipI c hcW⟩
  simp only [hl]
  rw [if_neg (by simp [hne]), Bool.and_eq_true, Bool.and_eq_true]
  refine ⟨⟨?_, ?_⟩, ?_⟩
  · rw [ht]
    rfl
  · rw [(anyL_false_iff _ _).mpr (appH2L_absent chip _ hchipT c hcT)]
    rfl
  · rw [(anyL_false_iff _ _).mpr (appH2L_absent chip _ hchipH c hcH)]
    rfl

theorem isEmpty_eq_nil {a : Attrs} (h : a.isEmpty = true) : a = [] := by
  cases a with
  | nil => rfl
  | cons x r => simp [List.isEmpty] at h

mutual

theorem updN_titleSet_inv (s : String) :
    ∀ n : Node, wfN n = true →
      findFirstN (hid "stock-symbol-header")
        (updFirstN isTitleTag (setStringU s) n).1 =
        findFirstN (hid "stock-symbol-header") n ∧
      wfN (updFirstN isTitleTag (setStringU s) n).1 = true
  | .text t => fun _ => ⟨rfl, rfl⟩
  | .elem tg a c => fun hwf => by
    rw [wfN, Bool.and_eq_true, Bool.and_eq_true] at hwf
    obtain ⟨⟨hT, hI⟩, hC⟩ := hwf
    by_cases hg : isTitleTag tg a = true
    · have hg2 : (tg == "title") = true := hg
      rw [if_pos hg2, Bool.and_eq_true] at hT
      obtain ⟨ha, htx⟩ := hT
      have ha2 : a = [] := isEmpty_eq_nil ha
      subst ha2
      simp only [updFirstN, if_pos hg, setStringU]
      constructor
      · rw [findFirstN, findFirstN, if_neg (by simp [hid, lookupAttr]),
          if_neg (by simp [hid, lookupAttr])]
        rw [textOnly_findFirst _ c htx]
        rfl
      · rw [wfN, Bool.and_eq_true, Bool.and_eq_true]
        refine ⟨⟨?_, by simp [lookupAttr]⟩, rfl⟩
        rw [if_pos hg2]
        rfl
    · by_cases hq : hid "stock-symbol-header" tg a = true
      · have hlh : lookupAttr a "id" = some "stock-symbol-header" :=
          hid_eq_some hq
        simp only [hlh] at hI
        rw [if_pos (by rfl), Bool.and_eq_true, Bool.and_eq_true] at hI
        obtain ⟨⟨hnt, hnoT⟩, hnoI⟩ := hI
        have hno : findFirstL isTitleTag c = none :=
          (anyL_false_iff _ _).mp (bnot_true hnoT)
        simp only [updFirstN, if_neg hg, updFirstL_noop _ _ c hno]
        refine ⟨trivial, ?_⟩
        rw [wfN, Bool.and_eq_true, Bool.and_eq_true]
        refine ⟨⟨by rw [if_neg (by simp [bnot_true hnt])], ?_⟩, hC⟩
        simp only [hlh]
        rw [if_pos (by rfl), Bool.and_eq_true, Bool.and_eq_true]
        exact ⟨⟨hnt, hnoT⟩, hnoI⟩
      · cases hl : lookupAttr a "id" with
        | some j =>
          simp only [hl] at hI
          have hj : (j == "stock-symbol-header") = false := by
            cases hx : (j == "stock-symbol-header")
            · rfl
            · exfalso
              apply hq
              show (lookupAttr a "id" == some "stock-symbol-header") = true
              rw [hl, some_beq_some]
              exact hx
          rw [if_neg (by simp [hj]), Bool.and_eq_true, Bool.and_eq_true] at hI
          obtain ⟨⟨hnt, hnoT⟩, hnoH⟩ := hI
          have hno : findFirstL isTitleTag c = none :=
            (anyL_false_iff _ _).mp (bnot_true hnoT)
          simp only [updFirstN, if_neg hg, updFirstL_noop _ _ c hno]
          refine ⟨trivial, ?_⟩
          rw [wfN, Bool.and_eq_true, Bool.and_eq_true]
          refine ⟨⟨by rw [if_neg (by simp [bnot_true hnt])], ?_⟩, hC⟩
          simp only [hl]
          rw [if_neg (by simp [hj]), Bool.and_eq_true, Bool.and_eq_true]
          exact ⟨⟨hnt, hnoT⟩, hnoH⟩
        | none =>
          rcases hr : updFirstL isTitleTag (setStringU s) c with ⟨r2, b2⟩
          have ih := updL_titleSet_inv s c hC
          rw [hr] at ih
          obtain ⟨ihH, ihW⟩ := ih
          simp only [updFirstN, if_neg hg, hr]
          constructor
          · rw [findFirstN, findFirstN, if_neg hq, if_neg hq]
            exact ihH
          · rw [wfN, Bool.and_eq_true, Bool.and_eq_true]
            refine ⟨⟨by rw [if_neg (by simp [isTitleTag] at hg; simp [hg])],
              by simp [hl]⟩, ihW⟩

theorem updL_titleSet_inv (s : String) :
    ∀ d : NodeList, wfL d = true →
      findFirstL (hid "stock-symbol-header")
        (updFirstL isTitleTag (setStringU s) d).1 =
        findFirstL (hid "stock-symbol-header") d ∧
      wfL (updFirstL isTitleTag (setStringU s) d).1 = true
  | .nil => fun _ => ⟨rfl, rfl⟩
  | .cons n rest => fun hwf => by
    rw [wfL, Bool.and_eq_true] at hwf
    obtain ⟨h1, h2⟩ := hwf
    rcases hn : updFirstN isTitleTag (setStringU s) n with ⟨n2, b⟩
    have ihn := updN_titleSet_inv s n h1
    rw [hn] at ihn
    obtain ⟨inH, inW⟩ := ihn
    cases b with
    | true =>
      simp only [updFirstL, hn]
      refine ⟨?_, ?_⟩
      · rw [findFirstL, findFirstL, inH]
      · rw [wfL, Bool.and_eq_true]
        exact ⟨inW, h2⟩
    | false =>
      rcases hr : updFirstL isTitleTag (setStringU s) rest with ⟨r2, b2⟩
      have ihr := updL_titleSet_inv s rest h2
      rw [hr] at ihr
      obtain ⟨irH, irW⟩ := ihr
      simp only [updFirstL, hn, hr]
      refine ⟨?_, ?_⟩
      · rw [findFirstL, findFirstL, inH, irH]
      · rw [wfL, Bool.and_eq_true]
        exact ⟨inW, irW⟩

end

mutual

theorem updN_hdrSet_inv (s : String) :
    ∀ n : Node, wfN n = true →
      findFirstN isTitleTag
        (updFirstN (hid "stock-symbol-header") (setStringU s) n).1 =
        findFirstN isTitleTag n ∧
      wfN (updFirstN (hid "stock-symbol-header") (setStringU s) n).1 = true
  | .text t => fun _ => ⟨rfl, rfl⟩
  | .elem tg a c => fun hwf => by
    rw [wfN, Bool.and_eq_true, Bool.and_eq_true] at hwf
    obtain ⟨⟨hT, hI⟩, hC⟩ := hwf
    by_cases hg : hid "stock-symbol-header" tg a = true
    · have hlh : lookupAttr a "id" = some "stock-symbol-header" :=
        hid_eq_some hg
      simp only [hlh] at hI
      rw [if_pos (by rfl), Bool.and_eq_true, Bool.and_eq_true] at hI
      obtain ⟨⟨hnt, hnoT⟩, hnoI⟩ := hI
      have hnt2 : (tg == "title") = false := bnot_true hnt
      have hcT : findFirstL isTitleTag c = none :=
        (anyL_false_iff _ _).mp (bnot_true hnoT)
      simp only [updFirstN, if_pos hg, setStringU]
      constructor
      · rw [findFirstN, findFirstN, if_neg (by simp [isTitleTag, hnt2]),
          if_neg (by simp [isTitleTag, hnt2]), hcT]
        rfl
      · rw [wfN, Bool.and_eq_true, Bool.and_eq_true]
        refine ⟨⟨by rw [if_neg (by simp [hnt2])], ?_⟩, rfl⟩
        simp only [hlh]
        rw [if_pos (by rfl), Bool.and_eq_true, Bool.and_eq_true]
        exact ⟨⟨hnt, rfl⟩, rfl⟩
    · by_cases ht2 : (tg == "title") = true
      · rw [if_pos ht2, Bool.and_eq_true] at hT
        obtain ⟨ha, htx⟩ := hT
        have hno : findFirstL (hid "stock-symbol-header") c = none :=
          textOnly_findFirst _ c htx
        simp only [updFirstN, if_neg hg, updFirstL_noop _ _ c hno]
        refine ⟨trivial, ?_⟩
        rw [wfN, Bool.and_eq_true, Bool.and_eq_true]
        refine ⟨⟨?_, hI⟩, hC⟩
        rw [if_pos ht2, Bool.and_eq_true]
        exact ⟨ha, htx⟩
      · cases hl : lookupAttr a "id" with
        | some j =>
          simp only [hl] at hI
          have hj : (j == "stock-symbol-header") = false := by
            cases hx : (j == "stock-symbol-header")
            · rfl
            · exfalso
              apply hg
              show (lookupAttr a "id" == some "stock-symbol-header") = true
              rw [hl, some_beq_some]
              exact hx
          rw [if_neg (by simp [hj]), Bool.and_eq_true, Bool.and_eq_true] at hI
          obtain ⟨⟨hnt, hnoT⟩, hnoH⟩ := hI
          have hno : findFirstL (hid "stock-symbol-header") c = none :=
            (anyL_false_iff _ _).mp (bnot_true hnoH)
          simp only [updFirstN, if_neg hg, updFirstL_noop _ _ c hno]
          refine ⟨trivial, ?_⟩
          rw [wfN, Bool.and_eq_true, Bool.and_eq_true]
          refine ⟨⟨by rw [if_neg (by simp [ht2])], ?_⟩, hC⟩
          simp only [hl]
          rw [if_neg (by simp [hj]), Bool.and_eq_true, Bool.and_eq_true]
          exact ⟨⟨hnt, hnoT⟩, hnoH⟩
        | none =>
          rcases hr : updFirstL (hid "stock-symbol-header") (setStringU s) c
            with ⟨r2, b2⟩
          have ih := updL_hdrSet_inv s c hC
          rw [hr] at ih
          obtain ⟨ihT, ihW⟩ := ih
          simp only [updFirstN, if_neg hg, hr]
          constructor
          · rw [findFirstN, findFirstN, if_neg (by simp [isTitleTag, ht2]),
              if_neg (by simp [isTitleTag, ht2])]
            exact ihT
          · rw [wfN, Bool.and_eq_true, Bool.and_eq_true]
            refine ⟨⟨by rw [if_neg (by simp [ht2])], by simp [hl]⟩, ihW⟩

theorem updL_hdrSet_inv (s : String) :
    ∀ d : NodeList, wfL d = true →
      findFirstL isTitleTag
        (updFirstL (hid "stock-symbol-header") (setStringU s) d).1 =
        findFirstL isTitleTag d ∧
      wfL (updFirstL (hid "stock-symbol-header") (setStringU s) d).1 = true
  | .nil => fun _ => ⟨rfl, rfl⟩
  | .cons n rest => fun hwf => by
    rw [wfL, Bool.and_eq_true] at hwf
    obtain ⟨h1, h2⟩ := hwf
    rcases hn : updFirstN (hid "stock-symbol-header") (setStringU s) n
      with ⟨n2, b⟩
    have ihn := updN_hdrSet_inv s n h1
    rw [hn] at ihn
    obtain ⟨inT, inW⟩ := ihn
    cases b with
    | true =>
      simp only [updFirstL, hn]
      refine ⟨?_, ?_⟩
      · rw [findFirstL, findFirstL, inT]
      · rw [wfL, Bool.and_eq_true]
        exact ⟨inW, h2⟩
    | false =>
      rcases hr : updFirstL (hid "stock-symbol-header") (setStringU s) rest
        with ⟨r2, b2⟩
      have ihr := updL_hdrSet_inv s rest h2
      rw [hr] at ihr
      obtain ⟨irT, irW⟩ := ihr
      simp only [updFirstL, hn, hr]
      refine ⟨?_, ?_⟩
      · rw [findFirstL, findFirstL, inT, irT]
      · rw [wfL, Bool.and_eq_true]
        exact ⟨inW, irW⟩

end

theorem opt_isSome_map {α β : Type} (f : α → β) (o : Option α) :
    (o.map f).isSome = o.isSome := by
  cases o <;> rfl

theorem any_eq_attr (g : EPred) (f : String → Attrs → Attrs) (q : EPred)
    (Hq : ∀ tg a, q tg (f tg a) = q tg a) (d : NodeList) :
    anyL q (updFirstL g (attrU f) d).1 = anyL q d := by
  have e := updL_attr_pres g f q Hq d
  have e2 := congrArg Option.isSome e
  rw [opt_isSome_map, opt_isSome_map] at e2
  exact e2

theorem any_eq_updAll (g : EPred) (f : String → Attrs → Attrs) (q : EPred)
    (Hq : ∀ tg a, q tg (f tg a) = q tg a) (d : NodeList) :
    anyL q (updAllAL g f d) = anyL q d := by
  have e := updAllL_pres g f q Hq d
  have e2 := congrArg Option.isSome e
  rw [opt_isSome_map, opt_isSome_map] at e2
  exact e2

theorem textOnly_updAll (g : EPred) (f : String → Attrs → Attrs) :
    ∀ d : NodeList, textOnlyL d = true → updAllAL g f d = d
  | .nil => fun _ => rfl
  | .cons (.text t) r => fun h => by
    rw [textOnlyL] at h
    rw [updAllAL, updAllAN, textOnly_updAll g f r h]
  | .cons (.elem tg a c) r => fun h => by
    simp [textOnlyL] at h

mutual

theorem wfN_attrFirst (g : EPred) (f : String → Attrs → Attrs)
    (Hgt : ∀ tg a, g tg a = true → (tg == "title") = false)
    (Hf : ∀ tg a, lookupAttr (f tg a) "id" = lookupAttr a "id") :
    ∀ n : Node, wfN n = true → wfN (updFirstN g (attrU f) n).1 = true
  | .text t => fun _ => rfl
  | .elem tg a c => fun hwf => by
    rw [wfN, Bool.and_eq_true, Bool.and_eq_true] at hwf
    obtain ⟨⟨hT, hI⟩, hC⟩ := hwf
    by_cases hg : g tg a = true
    · simp only [updFirstN, if_pos hg, attrU]
      rw [wfN, Bool.and_eq_true, Bool.and_eq_true]
      refine ⟨⟨by rw [if_neg (by simp [Hgt tg a hg])], ?_⟩, hC⟩
      rw [Hf tg a]
      exact hI
    · by_cases ht2 : (tg == "title") = true
      · rw [if_pos ht2, Bool.and_eq_true] at hT
        obtain ⟨ha, htx⟩ := hT
        have hno : findFirstL g c = none := textOnly_findFirst _ c htx
        simp only [updFirstN, if_neg hg, updFirstL_noop _ _ c hno]
        rw [wfN, Bool.and_eq_true, Bool.and_eq_true]
        refine ⟨⟨?_, hI⟩, hC⟩
        rw [if_pos ht2, Bool.and_eq_true]
        exact ⟨ha, htx⟩
      · rcases hr : updFirstL g (attrU f) c with ⟨r2, b2⟩
        have ihW := wfL_attrFirst g f Hgt Hf c hC
        rw [hr] at ihW
        have hany : ∀ (q : EPred), (∀ tg2 a2, q tg2 (f tg2 a2) = q tg2 a2) →
            anyL q r2 = anyL q c := by
          intro q Hq
          have h0 := any_eq_attr g f q Hq c
          rw [hr] at h0
          exact h0
        have HqH : ∀ tg2 a2, hid "stock-symbol-header" tg2 (f tg2 a2) =
            hid "stock-symbol-header" tg2 a2 := by
          intro tg2 a2
          show (lookupAttr (f tg2 a2) "id" == some "stock-symbol-header") =
            (lookupAttr a2 "id" == some "stock-symbol-header")
          rw [Hf]
        have HqI : ∀ tg2 a2, hasIdAttr tg2 (f tg2 a2) = hasIdAttr tg2 a2 := by
          intro tg2 a2
          show (lookupAttr (f tg2 a2) "id").isSome =
            (lookupAttr a2 "id").isSome
          rw [Hf]
        simp only [updFirstN, if_neg hg, hr]
        rw [wfN, Bool.and_eq_true, Bool.and_eq_true]
        refine ⟨⟨by rw [if_neg (by simp [ht2])], ?_⟩, ihW⟩
        cases hl : lookupAttr a "id" with
        | none => simp [hl]
        | some j =>
          simp only [hl] at hI ⊢
          by_cases hj : (j == "stock-symbol-header") = true
          · rw [if_pos hj] at hI ⊢
            rw [Bool.and_eq_true, Bool.and_eq_true] at hI
            obtain ⟨⟨h1, h2⟩, h3⟩ := hI
            rw [Bool.and_eq_true, Bool.and_eq_true]
            refine ⟨⟨h1, ?_⟩, ?_⟩
            · rw [hany isTitleTag (fun _ _ => rfl)]
              exact h2
            · rw [hany hasIdAttr HqI]
              exact h3
          · rw [if_neg hj] at hI ⊢
            rw [Bool.and_eq_true, Bool.and_eq_true] at hI
            obtain ⟨⟨h1, h2⟩, h3⟩ := hI
            rw [Bool.and_eq_true, Bool.and_eq_true]
            refine ⟨⟨h1, ?_⟩, ?_⟩
            · rw [hany isTitleTag (fun _ _ => rfl)]
              exact h2
            · rw [hany (hid "stock-symbol-header") HqH]
              exact h3

theorem wfL_attrFirst (g : EPred) (f : String → Attrs → Attrs)
    (Hgt : ∀ tg a, g tg a = true → (tg == "title") = false)
    (Hf : ∀ tg a, lookupAttr (f tg a) "id" = lookupAttr a "id") :
    ∀ d : NodeList, wfL d = true → wfL (updFirstL g (attrU f) d).1 = true
  | .nil => fun _ => rfl
  | .cons n rest => fun hwf => by
    rw [wfL, Bool.and_eq_true] at hwf
    obtain ⟨h1, h2⟩ := hwf
    rcases hn : updFirstN g (attrU f) n with ⟨n2, b⟩
    have inW : wfN n2 = true := by
      have h0 := wfN_attrFirst g f Hgt Hf n h1
      rw [hn] at h0
      exact h0
    cases b with
    | true =>
      simp only [updFirstL, hn]
      rw [wfL, Bool.and_eq_true]
      exact ⟨inW, h2⟩
    | false =>
      rcases hr : updFirstL g (attrU f) rest with ⟨r2, b2⟩
      have irW : wfL r2 = true := by
        have h0 := wfL_attrFirst g f Hgt Hf rest h2
        rw [hr] at h0
        exact h0
      simp only [updFirstL, hn, hr]
      rw [wfL, Bool.and_eq_true]
      exact ⟨inW, irW⟩

end

mutual

theorem wfN_updAll (g : EPred) (f : String → Attrs → Attrs)
    (Hgt : ∀ tg a, g tg a = true → (tg == "title") = false)
    (Hf : ∀ tg a, lookupAttr (f tg a) "id" = lookupAttr a "id") :
    ∀ n : Node, wfN n = true → wfN (updAllAN g f n) = true
  | .text t => fun _ => rfl
  | .elem tg a c => fun hwf => by
    rw [wfN, Bool.and_eq_true, Bool.and_eq_true] at hwf
    obtain ⟨⟨hT, hI⟩, hC⟩ := hwf
    have hla : lookupAttr (if g tg a = true then f tg a else a) "id" =
        lookupAttr a "id" := by
      by_cases hg : g tg a = true
      · rw [if_pos hg, Hf]
      · rw [if_neg hg]
    have HqH : ∀ tg2 a2, hid "stock-symbol-header" tg2 (f tg2 a2) =
        hid "stock-symbol-header" tg2 a2 := by
      intro tg2 a2
      show (lookupAttr (f tg2 a2) "id" == some "stock-symbol-header") =
        (lookupAttr a2 "id" == some "stock-symbol-header")
      rw [Hf]
    have HqI : ∀ tg2 a2, hasIdAttr tg2 (f tg2 a2) = hasIdAttr tg2 a2 := by
      intro tg2 a2
      show (lookupAttr (f tg2 a2) "id").isSome = (lookupAttr a2 "id").isSome
      rw [Hf]
    simp only [updAllAN]
    rw [wfN, Bool.and_eq_true, Bool.and_eq_true]
    refine ⟨⟨?_, ?_⟩, wfL_updAll g f Hgt Hf c hC⟩
    · by_cases ht2 : (tg == "title") = true
      · rw [if_pos ht2, Bool.and_eq_true] at hT
        obtain ⟨ha, htx⟩ := hT
        have hgf : g tg a = false := by
          cases hx : g tg a
          · rfl
          · rw [Hgt tg a hx] at ht2; exact absurd ht2 (by simp)
        rw [if_pos ht2, hgf, if_neg (show ¬ (false = true) by simp)]
        rw [Bool.and_eq_true]
        refine ⟨ha, ?_⟩
        rw [textOnly_updAll g f c htx]
        exact htx
      · rw [if_neg (by simp [ht2])]
    · rw [hla]
      cases hl : lookupAttr a "id" with
      | none => simp [hl]
      | some j =>
        simp only [hl] at hI ⊢
        by_cases hj : (j == "stock-symbol-header") = true
        · rw [if_pos hj] at hI ⊢
          rw [Bool.and_eq_true, Bool.and_eq_true] at hI
          obtain ⟨⟨h1, h2⟩, h3⟩ := hI
          rw [Bool.and_eq_true, Bool.and_eq_true]
          refine ⟨⟨h1, ?_⟩, ?_⟩
          · rw [any_eq_updAll g f isTitleTag (fun _ _ => rfl) c]
            exact h2
          · rw [any_eq_updAll g f hasIdAttr HqI c]
            exact h3
        · rw [if_neg hj] at hI ⊢
          rw [Bool.and_eq_true, Bool.and_eq_true] at hI
          obtain ⟨⟨h1, h2⟩, h3⟩ := hI
          rw [Bool.and_eq_true, Bool.and_eq_true]
          refine ⟨⟨h1, ?_⟩, ?_⟩
          · rw [any_eq_updAll g f isTitleTag (fun _ _ => rfl) c]
            exact h2
          · rw [any_eq_updAll g f (hid "stock-symbol-header") HqH c]
            exact h3

theorem wfL_updAll (g : EPred) (f : String → Attrs → Attrs)
    (Hgt : ∀ tg a, g tg a = true → (tg == "title") = false)
    (Hf : ∀ tg a, lookupAttr (f tg a) "id" = lookupAttr a "id") :
    ∀ d : NodeList, wfL d = true → wfL (updAllAL g f d) = true
  | .nil => fun _ => rfl
  | .cons n rest => fun hwf => by
    rw [wfL, Bool.and_eq_true] at hwf
    obtain ⟨h1, h2⟩ := hwf
    simp only [updAllAL]
    rw [wfL, Bool.and_eq_true]
    exact ⟨wfN_updAll g f Hgt Hf n h1, wfL_updAll g f Hgt Hf rest h2⟩

end

theorem updL_ph_setStr (i s : String)
    (hne : (i == "stock-symbol-header") = false) (d : NodeList)
    (hwf : wfL d = true) :
    findFirstL isTitleTag (updFirstL (hid i) (setStringU s) d).1 =
      findFirstL isTitleTag d ∧
    findFirstL (hid "stock-symbol-header")
      (updFirstL (hid i) (setStringU s) d).1 =
      findFirstL (hid "stock-symbol-header") d ∧
    wfL (updFirstL (hid i) (setStringU s) d).1 = true :=
  updL_ph i hne (setStringU s)
    (fun tg a c _ ht _ => setStrU_T s tg a c ht)
    (fun tg a c hl _ => setStrU_H s i hne tg a c hl)
    (fun tg a c hl ht _ _ _ => setStrU_W s i hne tg a c hl ht)
    d hwf

theorem updL_ph_attr (i : String)
    (hne : (i == "stock-symbol-header") = false)
    (f : String → Attrs → Attrs)
    (Hf : ∀ tg a, lookupAttr (f tg a) "id" = lookupAttr a "id")
    (d : NodeList) (hwf : wfL d = true) :
    findFirstL isTitleTag (updFirstL (hid i) (attrU f) d).1 =
      findFirstL isTitleTag d ∧
    findFirstL (hid "stock-symbol-header")
      (updFirstL (hid i) (attrU f) d).1 =
      findFirstL (hid "stock-symbol-header") d ∧
    wfL (updFirstL (hid i) (attrU f) d).1 = true :=
  updL_ph i hne (attrU f)
    (fun tg a c _ ht hc => attrU_T f tg a c ht hc)
    (fun tg a c hl hc => attrU_H f Hf i hne tg a c hl hc)
    (fun tg a c hl ht hcT hcH hcw => attrU_W f Hf i hne tg a c hl ht hcT hcH hcw)
    d hwf

theorem updL_ph_replace (i : String)
    (hne : (i == "stock-symbol-header") = false) (w : Node)
    (hwT : findFirstN isTitleTag w = none)
    (hwH : findFirstN (hid "stock-symbol-header") w = none)
    (hwW : wfN w = true) (d : NodeList) (hwf : wfL d = true) :
    findFirstL isTitleTag (updFirstL (hid i) (replaceU w) d).1 =
      findFirstL isTitleTag d ∧
    findFirstL (hid "stock-symbol-header")
      (updFirstL (hid i) (replaceU w) d).1 =
      findFirstL (hid "stock-symbol-header") d ∧
    wfL (updFirstL (hid i) (replaceU w) d).1 = true :=
  updL_ph i hne (replaceU w)
    (fun _ _ _ _ _ _ => hwT)
    (fun _ _ _ _ _ => hwH)
    (fun _ _ _ _ _ _ _ _ => hwW)
    d hwf

theorem updL_ph_chip (i : String)
    (hne : (i == "stock-symbol-header") = false) (chip : Node)
    (hcw : wfN chip = true)
    (hcT : findFirstN isTitleTag chip = none)
    (hcH : findFirstN (hid "stock-symbol-header") chip = none)
    (hcI : findFirstN hasIdAttr chip = none)
    (d : NodeList) (hwf : wfL d = true) :
    findFirstL isTitleTag (updFirstL (hid i) (chipU chip) d).1 =
      findFirstL isTitleTag d ∧
    findFirstL (hid "stock-symbol-header")
      (updFirstL (hid i) (chipU chip) d).1 =
      findFirstL (hid "stock-symbol-header") d ∧
    wfL (updFirstL (hid i) (chipU chip) d).1 = true :=
  updL_ph i hne (chipU chip)
    (fun tg a c _ ht hc => chipU_T chip hcT tg a c ht hc)
    (fun tg a c hl hc => chipU_H chip hcH i hne tg a c hl hc)
    (fun tg a c hl ht hcT2 hcH2 hcw2 =>
      chipU_W chip hcw hcT hcH hcI i hne tg a c hl ht hcT2 hcH2 hcw2)
    d hwf

theorem renderSection_inv (stock_data medians : String → Option ℚ)
    (d : NodeList) (sec : String × List String)
    (hne1 : (sec.1 == "stock-symbol-header") = false)
    (hne2 : (("score-val-" ++ sec.1) == "stock-symbol-header") = false)
    (hne3 : (("score-bar-" ++ sec.1) == "stock-symbol-header") = false)
    (hne4 : (("card-" ++ sec.1) == "stock-symbol-header") = false)
    (hne5 : (("score-label-" ++ sec.1) == "stock-symbol-header") = false)
    (hwf : wfL d = true) :
    findFirstL isTitleTag (renderSection stock_data medians d sec) =
      findFirstL isTitleTag d ∧
    findFirstL (hid "stock-symbol-header")
      (renderSection stock_data medians d sec) =
      findFirstL (hid "stock-symbol-header") d ∧
    wfL (renderSection stock_data medians d sec) = true := by
  simp only [renderSection]
  obtain ⟨t1, h1, w1⟩ := updL_ph_chip sec.1 hne1 _
    (chip_wf _ _ _) (chip_title_free _ _ _) (chip_hdr_free _ _ _)
    (chip_hasId_free _ _ _) d hwf
  obtain ⟨t2, h2, w2⟩ := updL_ph_setStr ("score-val-" ++ sec.1) _ hne2 _ w1
  obtain ⟨t3, h3, w3⟩ := updL_ph_attr ("score-bar-" ++ sec.1) hne3 _
    (fun tg a => lookup_setAttr "style" "id" _ (by decide) a) _ w2
  obtain ⟨t4, h4, w4⟩ := updL_ph_attr ("card-" ++ sec.1) hne4 _
    (fun tg a => lookup_setAttr "class" "id" _ (by decide) a) _ w3
  obtain ⟨t5, h5, w5⟩ := updL_ph_setStr ("score-label-" ++ sec.1) _ hne5 _ w4
  exact ⟨by rw [t5, t4, t3, t2, t1], by rw [h5, h4, h3, h2, h1], w5⟩

theorem renderMetric_inv (stock_data medians : String → Option ℚ)
    (d : NodeList) (field_id : String)
    (hne1 : (field_id == "stock-symbol-header") = false)
    (hne2 : ((field_id ++ "_median") == "stock-symbol-header") = false)
    (hwf : wfL d = true) :
    findFirstL isTitleTag (renderMetric stock_data medians d field_id) =
      findFirstL isTitleTag d ∧
    findFirstL (hid "stock-symbol-header")
      (renderMetric stock_data medians d field_id) =
      findFirstL (hid "stock-symbol-header") d ∧
    wfL (renderMetric stock_data medians d field_id) = true := by
  simp only [renderMetric]
  obtain ⟨t1, h1, w1⟩ := updL_ph_replace field_id hne1 _
    (wrapper_title_free _ _ _) (wrapper_hdr_free _ _ _) (wrapper_wf _ _ _)
    d hwf
  obtain ⟨t2, h2, w2⟩ := updL_ph_setStr (field_id ++ "_median") _ hne2 _ w1
  exact ⟨by rw [t2, t1], by rw [h2, h1], w2⟩

theorem foldl_sections_inv (stock_data medians : String → Option ℚ) :
    ∀ (secs : List (String × List String)) (d : NodeList),
      (∀ p ∈ secs, (p.1 == "stock-symbol-header") = false ∧
        (("score-val-" ++ p.1) == "stock-symbol-header") = false ∧
        (("score-bar-" ++ p.1) == "stock-symbol-header") = false ∧
        (("card-" ++ p.1) == "stock-symbol-header") = false ∧
        (("score-label-" ++ p.1) == "stock-symbol-header") = false) →
      wfL d = true →
      findFirstL isTitleTag (secs.foldl (renderSection stock_data medians) d) =
        findFirstL isTitleTag d ∧
      findFirstL (hid "stock-symbol-header")
        (secs.foldl (renderSection stock_data medians) d) =
        findFirstL (hid "stock-symbol-header") d ∧
      wfL (secs.foldl (renderSection stock_data medians) d) = true
  | [], d => fun _ _ => ⟨rfl, rfl, by assumption⟩
  | p :: rest, d => fun h hwf => by
    have hp := h p (List.mem_cons_self p rest)
    obtain ⟨t1, h1, w1⟩ := renderSection_inv stock_data medians d p
      hp.1 hp.2.1 hp.2.2.1 hp.2.2.2.1 hp.2.2.2.2 hwf
    obtain ⟨t2, h2, w2⟩ := foldl_sections_inv stock_data medians rest
      (renderSection stock_data medians d p)
      (fun q hq => h q (List.mem_cons_of_mem _ hq)) w1
    rw [List.foldl_cons]
    exact ⟨by rw [t2, t1], by rw [h2, h1], w2⟩

theorem foldl_metrics_inv (stock_data medians : String → Option ℚ) :
    ∀ (fids : List String) (d : NodeList),
      (∀ f ∈ fids, (f == "stock-symbol-header") = false ∧
        ((f ++ "_median") == "stock-symbol-header") = false) →
      wfL d = true →
      findFirstL isTitleTag (fids.foldl (renderMetric stock_data medians) d) =
        findFirstL isTitleTag d ∧
      findFirstL (hid "stock-symbol-header")
        (fids.foldl (renderMetric stock_data medians) d) =
        findFirstL (hid "stock-symbol-header") d ∧
      wfL (fids.foldl (renderMetric stock_data medians) d) = true
  | [], d => fun _ _ => ⟨rfl, rfl, by assumption⟩
  | f :: rest, d => fun h hwf => by
    have hf := h f (List.mem_cons_self f rest)
    obtain ⟨t1, h1, w1⟩ := renderMetric_inv stock_data medians d f
      hf.1 hf.2 hwf
    obtain ⟨t2, h2, w2⟩ := foldl_metrics_inv stock_data medians rest
      (renderMetric stock_data medians d f)
      (fun q hq => h q (List.mem_cons_of_mem _ hq)) w1
    rw [List.foldl_cons]
    exact ⟨by rw [t2, t1], by rw [h2, h1], w2⟩

theorem lookup_bodyFix (symbol : String) : ∀ (tg : String) (a : Attrs),
    lookupAttr (bodyAttrsFix symbol tg a) "id" = lookupAttr a "id" := by
  intro tg a
  simp only [bodyAttrsFix]
  rw [lookup_setAttr "data-prerendered" "id" "1" (by decide),
    lookup_setAttr "data-stock-symbol" "id" symbol (by decide)]

theorem lookup_linkFix (ap : String) : ∀ (tg : String) (a : Attrs),
    lookupAttr (linkFix ap tg a) "id" = lookupAttr a "id" := by
  intro tg a
  simp only [linkFix]
  by_cases hc : pyStrip ((lookupAttr a "href").getD "") == "styles.css"
  · rw [if_pos hc, lookup_setAttr "href" "id" _ (by decide)]
  · rw [if_neg hc]

theorem lookup_scriptFix (ap : String) : ∀ (tg : String) (a : Attrs),
    lookupAttr (scriptFix ap tg a) "id" = lookupAttr a "id" := by
  intro tg a
  simp only [scriptFix]
  by_cases hc : strStarts (pyStrip ((lookupAttr a "src").getD "")) "js/" = true
  · rw [if_pos hc, lookup_setAttr "src" "id" _ (by decide)]
  · rw [if_neg hc]

theorem lookup_aFix (ap : String) : ∀ (tg : String) (a : Attrs),
    lookupAttr (aFix ap tg a) "id" = lookupAttr a "id" := by
  intro tg a
  simp only [aFix]
  by_cases hc : pyStrip ((lookupAttr a "href").getD "") == "index.html"
  · rw [if_pos hc, lookup_setAttr "href" "id" _ (by decide)]
  · rw [if_neg hc]

theorem tag_ne_title (s tg : String)
    (hs : (s == "title") = false)
    (h : (tg == s) = true) : (tg == "title") = false := by
  have : tg = s := eq_of_beq h
  rw [this]
  exact hs

/-- C7 amended, once more: for every template holding a title element and
the header element with id stock-symbol-header, under the template
well-formedness predicate wfL (titles are attribute-free and text-only;
an element carrying any id is not a title, holds no title, and holds
neither the header nor, if it is the header itself, any id-carrying
element), render_html sets the page title to Stock Details - Symbol (not
the bare Symbol) and the header element to the Symbol. -/
theorem title_header_amended
    (template : NodeList) (symbol : String)
    (stock_data medians : String → Option ℚ) (asset_path : String)
    (h1 : anyL isTitleTag template = true)
    (h2 : anyL (hid "stock-symbol-header") template = true)
    (hwf : wfL template = true) :
    textFirst isTitleTag
      (render_doc template symbol stock_data medians asset_path) =
      some ("Stock Details - " ++ symbol) ∧
    textFirst (hid "stock-symbol-header")
      (render_doc template symbol stock_data medians asset_path) =
      some symbol := by
  simp only [render_doc]
  set newT := "Stock Details - " ++ symbol with hnewT
  set d1 := (updFirstL isTitleTag (setStringU newT) template).1 with hd1
  set d2 := (updFirstL (hid "stock-symbol-header") (setStringU symbol) d1).1
    with hd2
  set d3 := (updFirstL isBodyTag (attrU (bodyAttrsFix symbol)) d2).1 with hd3
  set d4 := updAllAL isLinkTag (linkFix asset_path) d3 with hd4
  set d5 := updAllAL isScriptTag (scriptFix asset_path) d4 with hd5
  set d6 := updAllAL isAnchorTag (aFix asset_path) d5 with hd6
  have h1i : (findFirstL isTitleTag template).isSome = true := h1
  have tt1 : (findFirstL isTitleTag d1).map textN = some newT :=
    (updFirstL_setStr isTitleTag newT template h1i).2
  obtain ⟨hu1, w1⟩ := updL_titleSet_inv newT template hwf
  rw [← hd1] at hu1 w1
  have hh2s : (findFirstL (hid "stock-symbol-header") d2).map textN =
      some symbol := by
    refine (updFirstL_setStr (hid "stock-symbol-header") symbol d1 ?_).2
    rw [hu1]
    exact h2
  obtain ⟨te2, w2⟩ := updL_hdrSet_inv symbol d1 w1
  rw [← hd2] at te2 w2
  have tt2 : (findFirstL isTitleTag d2).map textN = some newT := by
    rw [te2]; exact tt1
  have tt3 : (findFirstL isTitleTag d3).map textN = some newT := by
    have e := updL_attr_pres isBodyTag (bodyAttrsFix symbol) isTitleTag
      (fun _ _ => rfl) d2
    rw [← hd3] at e
    rw [e]; exact tt2
  have hh3s : (findFirstL (hid "stock-symbol-header") d3).map textN =
      some symbol := by
    have e := updL_attr_pres isBodyTag (bodyAttrsFix symbol)
      (hid "stock-symbol-header") (hid_bodyFix symbol _) d2
    rw [← hd3] at e
    rw [e]; exact hh2s
  have w3 : wfL d3 = true := by
    have e := wfL_attrFirst isBodyTag (bodyAttrsFix symbol)
      (fun tg a h => tag_ne_title "body" tg (by decide) h)
      (lookup_bodyFix symbol) d2 w2
    rw [← hd3] at e
    exact e
  have tt4 : (findFirstL isTitleTag d4).map textN = some newT := by
    have e := updAllL_pres isLinkTag (linkFix asset_path) isTitleTag
      (fun _ _ => rfl) d3
    rw [← hd4] at e
    rw [e]; exact tt3
  have hh4s : (findFirstL (hid "stock-symbol-header") d4).map textN =
      some symbol := by
    have e := updAllL_pres isLinkTag (linkFix asset_path)
      (hid "stock-symbol-header") (hid_linkFix asset_path _) d3
    rw [← hd4] at e
    rw [e]; exact hh3s
  have w4 : wfL d4 = true := by
    have e := wfL_updAll isLinkTag (linkFix asset_path)
      (fun tg a h => tag_ne_title "link" tg (by decide) h)
      (lookup_linkFix asset_path) d3 w3
    rw [← hd4] at e
    exact e
  have tt5 : (findFirstL isTitleTag d5).map textN = some newT := by
    have e := updAllL_pres isScriptTag (scriptFix asset_path) isTitleTag
      (fun _ _ => rfl) d4
    rw [← hd5] at e
    rw [e]; exact tt4
  have hh5s : (findFirstL (hid "stock-symbol-header") d5).map textN =
      some symbol := by
    have e := updAllL_pres isScriptTag (scriptFix asset_path)
      (hid "stock-symbol-header") (hid_scriptFix asset_path _) d4
    rw [← hd5] at e
    rw [e]; exact hh4s
  have w5 : wfL d5 = true := by
    have e := wfL_updAll isScriptTag (scriptFix asset_path)
      (fun tg a h => tag_ne_title "script" tg (by decide) h)
      (lookup_scriptFix asset_path) d4 w4
    rw [← hd5] at e
    exact e
  have tt6 : (findFirstL isTitleTag d6).map textN = some newT := by
    have e := updAllL_pres isAnchorTag (aFix asset_path) isTitleTag
      (fun _ _ => rfl) d5
    rw [← hd6] at e
    rw [e]; exact tt5
  have hh6s : (findFirstL (hid "stock-symbol-header") d6).map textN =
      some symbol := by
    have e := updAllL_pres isAnchorTag (aFix asset_path)
      (hid "stock-symbol-header") (hid_aFix asset_path _) d5
    rw [← hd6] at e
    rw [e]; exact hh5s
  have w6 : wfL d6 = true := by
    have e := wfL_updAll isAnchorTag (aFix asset_path)
      (fun tg a h => tag_ne_title "a" tg (by decide) h)
      (lookup_aFix asset_path) d5 w5
    rw [← hd6] at e
    exact e
  obtain ⟨tS, hS, wS⟩ := foldl_sections_inv stock_data medians
    SECTION_FIELDS d6 (by decide) w6
  obtain ⟨tM, hM, _⟩ := foldl_metrics_inv stock_data medians
    DATA_FIELDS (SECTION_FIELDS.foldl (renderSection stock_data medians) d6)
    (by decide) wS
  constructor
  · show (findFirstL isTitleTag _).map textN = some newT
    rw [tM, tS]
    exact tt6
  · show (findFirstL (hid "stock-symbol-header") _).map textN = some symbol
    rw [hM, hS]
    exact hh6s

set_option maxRecDepth 40000 in
/-- Witness for C7 amended: on a concrete two-element well-formed template
the rendered title is Stock Details - AAPL and the header is AAPL. -/
theorem title_header_amended_witness :
    (anyL isTitleTag claimDoc = true ∧
      anyL (hid "stock-symbol-header") claimDoc = true ∧
      wfL claimDoc = true) ∧
    textFirst isTitleTag
      (render_doc claimDoc "AAPL" (fun _ => none) (fun _ => none) "../") =
      some "Stock Details - AAPL" ∧
    textFirst (hid "stock-symbol-header")
      (render_doc claimDoc "AAPL" (fun _ => none) (fun _ => none) "../") =
      some "AAPL" := by
  have h := title_header_amended claimDoc "AAPL" (fun _ => none)
    (fun _ => none) "../" (by decide) (by decide) (by decide)
  exact ⟨⟨by decide, by decide, by decide⟩, h.1, h.2⟩

end AlphaVest
